import Mathlib

/-!
Verification of the content normalization and validation pipeline of the
champ-site repository: a shallow embedding in Lean 4 of the content
validator (`validate-content`) and of the data builders
(`scripts/build-data.mjs`), together with proofs about the behaviour the
specification ascribes to them.

Host-environment functions used by the JavaScript source are modelled at
the level of their documented semantics:
* `String.prototype.trim` / the regex class `\s` use the ECMAScript
  WhiteSpace/LineTerminator character set (`isJsWhitespace` below);
* `new Date("YYYY-MM-DDT00:00:00Z")` follows the ECMAScript Date Time
  String Format: months `01..12` and days `01..31` are accepted by the
  format and `MakeDay` rolls an out-of-range day of month over into the
  following month; anything else yields an invalid date.  (V8 rejects
  such strings outright; both behaviours make the round-trip comparison
  in `isIsoDate` fail, so the embedded function is unaffected.)
* `String.prototype.localeCompare` and the default `Array.prototype.sort`
  string comparator are both modelled as code-point lexicographic
  comparison (`lexLe`), their behaviour on the ASCII data handled by this
  pipeline; `Array.prototype.sort` is stable (ES2019), modelled by
  `List.insertionSort`.
* `path.join` is modelled as separator concatenation (`pathJoin`); the
  claims under study only concern which root a reference is resolved
  against and which prefix is stripped, never `..`-normalization.
-/

namespace Champ

/-- The ECMAScript WhiteSpace ∪ LineTerminator set, as used by
`String.prototype.trim` and by the regex class `\s`. -/
def isJsWhitespace (c : Char) : Bool :=
  decide (c.toNat = 9) || decide (c.toNat = 10) || decide (c.toNat = 11) ||
  decide (c.toNat = 12) || decide (c.toNat = 13) || decide (c.toNat = 32) ||
  decide (c.toNat = 160) || decide (c.toNat = 0x1680) ||
  (decide (0x2000 ≤ c.toNat) && decide (c.toNat ≤ 0x200a)) ||
  decide (c.toNat = 0x2028) || decide (c.toNat = 0x2029) ||
  decide (c.toNat = 0x202f) || decide (c.toNat = 0x205f) ||
  decide (c.toNat = 0x3000) || decide (c.toNat = 0xfeff)

/-- ASCII lower-casing of a single character, the effect of
`String.prototype.toLowerCase` on the ASCII data this pipeline handles. -/
def toLowerAscii (c : Char) : Char :=
  if 65 ≤ c.toNat ∧ c.toNat ≤ 90 then Char.ofNat (c.toNat + 32) else c

/-- `String.prototype.trim`, on the character list of a string. -/
def jsTrim (cs : List Char) : List Char :=
  ((cs.dropWhile isJsWhitespace).reverse.dropWhile isJsWhitespace).reverse

/-- `String.prototype.trim` on a `String`. -/
def jsTrimS (s : String) : String :=
  ⟨jsTrim s.data⟩

/-- JavaScript `a || b` for string operands (the empty string is falsy);
also models `a_raw || b_raw` where an absent field is represented by `""`. -/
def jsOr (a b : String) : String :=
  if a = "" then b else a

/-- Code-point lexicographic `≤` on character lists; the model of both the
default `Array.prototype.sort` string comparator and of
`String.prototype.localeCompare` on the data this pipeline sorts. -/
def lexLe : List Char → List Char → Bool
  | [], _ => true
  | _ :: _, [] => false
  | a :: as, b :: bs =>
    decide (a.toNat < b.toNat) || (decide (a.toNat = b.toNat) && lexLe as bs)

/-- Strict code-point lexicographic `<` on character lists. -/
def lexLt : List Char → List Char → Bool
  | [], [] => false
  | [], _ :: _ => true
  | _ :: _, [] => false
  | a :: as, b :: bs =>
    decide (a.toNat < b.toNat) || (decide (a.toNat = b.toNat) && lexLt as bs)

def lexLe_trans : ∀ {a b c : List Char},
    lexLe a b = true → lexLe b c = true → lexLe a c = true
  | [], _, _, _, _ => rfl
  | _ :: _, [], _, h, _ => by simp [lexLe] at h
  | _ :: _, _ :: _, [], _, h => by simp [lexLe] at h
  | a :: as, b :: bs, c :: cs, h₁, h₂ => by
    simp only [lexLe, Bool.or_eq_true, Bool.and_eq_true, decide_eq_true_eq] at *
    rcases h₁ with h₁ | ⟨h₁, h₁'⟩ <;> rcases h₂ with h₂ | ⟨h₂, h₂'⟩
    · exact Or.inl (Nat.lt_trans h₁ h₂)
    · exact Or.inl (h₂ ▸ h₁)
    · exact Or.inl (h₁ ▸ h₂)
    · exact Or.inr ⟨h₁.trans h₂, lexLe_trans h₁' h₂'⟩

def lexLe_total : ∀ (a b : List Char), lexLe a b = true ∨ lexLe b a = true
  | [], _ => Or.inl rfl
  | _ :: _, [] => Or.inr rfl
  | a :: as, b :: bs => by
    simp only [lexLe, Bool.or_eq_true, Bool.and_eq_true, decide_eq_true_eq]
    rcases Nat.lt_trichotomy a.toNat b.toNat with h | h | h
    · exact Or.inl (Or.inl h)
    · rcases lexLe_total as bs with ih | ih
      · exact Or.inl (Or.inr ⟨h, ih⟩)
      · exact Or.inr (Or.inr ⟨h.symm, ih⟩)
    · exact Or.inr (Or.inl h)

/-- ASCII digit test (regex `\d`). -/
def isAsciiDigit (c : Char) : Bool :=
  decide (48 ≤ c.toNat) && decide (c.toNat ≤ 57)

/-- The digit value of an ASCII digit character. -/
def digitVal (c : Char) : Nat :=
  c.toNat - 48

/-- The ASCII digit character for a digit value. -/
def digitChar (n : Nat) : Char :=
  Char.ofNat (48 + n)

/-- Two-digit zero-padded decimal rendering (as in `toISOString`). -/
def pad2 (n : Nat) : List Char :=
  [digitChar (n / 10 % 10), digitChar (n % 10)]

/-- Four-digit zero-padded decimal rendering (as in `toISOString`). -/
def pad4 (n : Nat) : List Char :=
  pad2 (n / 100) ++ pad2 (n % 100)

/-- The anchored regex `^\d{4}-\d{2}-\d{2}$` together with extraction of the
numeric year, month and day fields. -/
def parseIsoShape : List Char → Option (Nat × Nat × Nat)
  | [y1, y2, y3, y4, h1, m1, m2, h2, d1, d2] =>
    if isAsciiDigit y1 && isAsciiDigit y2 && isAsciiDigit y3 && isAsciiDigit y4 &&
        (h1 == '-') && isAsciiDigit m1 && isAsciiDigit m2 && (h2 == '-') &&
        isAsciiDigit d1 && isAsciiDigit d2 then
      some (1000 * digitVal y1 + 100 * digitVal y2 + 10 * digitVal y3 + digitVal y4,
        10 * digitVal m1 + digitVal m2, 10 * digitVal d1 + digitVal d2)
    else none
  | _ => none

/-- Proleptic-Gregorian leap year rule, as used by the ECMAScript Date type. -/
def isLeap (y : Nat) : Bool :=
  (decide (y % 4 = 0) && !decide (y % 100 = 0)) || decide (y % 400 = 0)

/-- Number of days of month `m` of year `y` (ECMAScript `DaysInMonth`). -/
def daysInMonth (y m : Nat) : Nat :=
  if m = 2 then (if isLeap y then 29 else 28)
  else if m = 4 ∨ m = 6 ∨ m = 9 ∨ m = 11 then 30 else 31

/-- `new Date("YYYY-MM-DDT00:00:00Z")`, per the ECMAScript Date Time String
Format: the format accepts months `01..12` and days `01..31`; a conforming
string is converted with `MakeDay`, which rolls a day past the end of the
month over into the next month; a non-conforming string yields an invalid
date (`none`). -/
def jsDateConstructUTC (y m d : Nat) : Option (Nat × Nat × Nat) :=
  if 1 ≤ m ∧ m ≤ 12 ∧ 1 ≤ d ∧ d ≤ 31 then
    some (if d ≤ daysInMonth y m then (y, m, d) else (y, m + 1, d - daysInMonth y m))
  else none

/-- `dt.toISOString().slice(0, 10)`: the date re-formatted as `YYYY-MM-DD`. -/
def formatIso (y m d : Nat) : List Char :=
  pad4 y ++ '-' :: (pad2 m ++ '-' :: pad2 d)

/-- `isIsoDate(s)` from the validator: trim, anchored `\d{4}-\d{2}-\d{2}`
test, then round-trip through a UTC date construction, comparing the
re-formatted date to the (trimmed) input. -/
def isIsoDate (s : String) : Bool :=
  let v := jsTrim s.data
  match parseIsoShape v with
  | none => false
  | some (y, m, d) =>
    match jsDateConstructUTC y m d with
    | none => false
    | some (y2, m2, d2) => formatIso y2 m2 d2 == v

/-- Stated from the specification: the string matches `\d{4}-\d{2}-\d{2}`
and denotes a real calendar date (month between 1 and 12, day between 1 and
the length of that month). -/
def isoDateSpec (cs : List Char) : Bool :=
  match parseIsoShape cs with
  | none => false
  | some (y, m, d) =>
    decide (1 ≤ m) && decide (m ≤ 12) && decide (1 ≤ d) && decide (d ≤ daysInMonth y m)

/-- `isHHmmOptional(s)`: empty (after trim) is valid; otherwise the anchored
regex `^\d{2}:\d{2}$` must match and the two `Number(..)` fields must lie in
`0..23` and `0..59`. -/
def isHHmmOptional (s : String) : Bool :=
  let v := jsTrim s.data
  if v = [] then true
  else
    match v with
    | [h1, h2, c, m1, m2] =>
      if isAsciiDigit h1 && isAsciiDigit h2 && (c == ':') &&
          isAsciiDigit m1 && isAsciiDigit m2 then
        decide (10 * digitVal h1 + digitVal h2 ≤ 23) &&
          decide (10 * digitVal m1 + digitVal m2 ≤ 59)
      else false
    | _ => false

/-- `nonEmpty(s)`: the trimmed string is non-empty. -/
def nonEmpty (s : String) : Bool :=
  decide (jsTrim s.data ≠ [])

/-- Case-insensitively strip the (already lower-case) pattern from the front
of a character list, returning the remainder. -/
def stripCIPrefix : List Char → List Char → Option (List Char)
  | [], cs => some cs
  | _ :: _, [] => none
  | p :: ps, c :: cs => if toLowerAscii c = p then stripCIPrefix ps cs else none

/-- The regex fragment `https?:\/\/` with the `i` flag: strip a letter-case
spelling of `http://` or `https://`, returning the remainder.  The optional
greedy `s?` never needs backtracking, because taking an `s` only to fail at
`://` means `://` cannot match with the `s` retained either. -/
def stripHttpScheme (cs : List Char) : Option (List Char) :=
  match stripCIPrefix ("http".data) cs with
  | none => none
  | some rest =>
    stripCIPrefix ("://".data)
      (match rest with
       | c :: tl => if toLowerAscii c = 's' then tl else rest
       | [] => rest)

/-- The test `/^https?:\/\//i.test(v)` used by `resolveGalleryImage`. -/
def startsWithHttpCI (cs : List Char) : Bool :=
  (stripHttpScheme cs).isSome

/-- `isHttpUrlRequired(s)`: false on empty (after trim), else the anchored
regex `/^https?:\/\/\S+$/i` must match the whole trimmed string. -/
def isHttpUrlRequired (s : String) : Bool :=
  let v := jsTrim s.data
  if v = [] then false
  else
    match stripHttpScheme v with
    | some r => !r.isEmpty && r.all (fun c => !isJsWhitespace c)
    | none => false

/-- `isHttpUrlOptional(s)`: true on empty (after trim), else the same
anchored regex `/^https?:\/\/\S+$/i` must match. -/
def isHttpUrlOptional (s : String) : Bool :=
  let v := jsTrim s.data
  if v = [] then true
  else
    match stripHttpScheme v with
    | some r => !r.isEmpty && r.all (fun c => !isJsWhitespace c)
    | none => false

/-- `filenameIsoDatePrefix(name)`: the capture of the anchored pattern
`^(\d{4}-\d{2}-\d{2})-`, or `""` when the filename does not start with such
a prefix. -/
def filenameIsoDatePrefix (name : String) : String :=
  match name.data with
  | y1 :: y2 :: y3 :: y4 :: h1 :: m1 :: m2 :: h2 :: d1 :: d2 :: h3 :: _ =>
    if isAsciiDigit y1 && isAsciiDigit y2 && isAsciiDigit y3 && isAsciiDigit y4 &&
        (h1 == '-') && isAsciiDigit m1 && isAsciiDigit m2 && (h2 == '-') &&
        isAsciiDigit d1 && isAsciiDigit d2 && (h3 == '-') then
      ⟨[y1, y2, y3, y4, h1, m1, m2, h2, d1, d2]⟩
    else ""
  | _ => ""

/-- `v.startsWith(p)` on the character lists of the strings. -/
def strStartsWith (v p : String) : Bool :=
  p.data.isPrefixOf v.data

/-- `v.slice(n)` for an all-ASCII prefix: drop the first `n` characters. -/
def strDropChars (v : String) (n : Nat) : String :=
  ⟨v.data.drop n⟩

/-- `v.includes(c)` for a single character. -/
def strContainsChar (v : String) (c : Char) : Bool :=
  v.data.contains c

/-- Result of resolving a gallery image reference. -/
inductive Resolved where
  | url (value : String)
  | file (value : String)
deriving DecidableEq, Repr

/-- `path.join`, modelled as separator concatenation (the resolver only
joins a root directory with a relative reference). -/
def pathJoin (a b : String) : String :=
  a ++ "/" ++ b

/-- `DIRS.galleryImages = path.join(ROOT, 'gallery', 'images')`, with the
process working directory `ROOT` as a parameter. -/
def galleryImagesDir (root : String) : String :=
  pathJoin (pathJoin root "gallery") "images"

/-- `resolveGalleryImage(image)` from the validator, with `ROOT` as a
parameter. -/
def resolveGalleryImage (root image : String) : Option Resolved :=
  let v := jsTrimS image
  if v = "" then none
  else if startsWithHttpCI v.data then some (Resolved.url v)
  else if strStartsWith v "images/" then
    some (Resolved.file (pathJoin (galleryImagesDir root)
      (strDropChars v "images/".data.length)))
  else if strStartsWith v "gallery/images/" then
    some (Resolved.file (pathJoin (galleryImagesDir root)
      (strDropChars v "gallery/images/".data.length)))
  else if strStartsWith v "gallery/" then some (Resolved.file (pathJoin root v))
  else if !(strContainsChar v '/') && !(strContainsChar v '\\') then
    some (Resolved.file (pathJoin (galleryImagesDir root) v))
  else some (Resolved.file (pathJoin root v))

/-- Stated from the specification: the six classification rules of §4.3, as
an explicit ordered rule list evaluated first-match-wins, the last rule
being the catch-all "resolve relative to the repository root as given". -/
def galleryRules (root : String) : List ((String → Bool) × (String → Resolved)) :=
  [ (fun v => startsWithHttpCI v.data, fun v => Resolved.url v),
    (fun v => strStartsWith v "images/",
      fun v => Resolved.file (pathJoin (galleryImagesDir root)
        (strDropChars v "images/".data.length))),
    (fun v => strStartsWith v "gallery/images/",
      fun v => Resolved.file (pathJoin (galleryImagesDir root)
        (strDropChars v "gallery/images/".data.length))),
    (fun v => strStartsWith v "gallery/", fun v => Resolved.file (pathJoin root v)),
    (fun v => !(strContainsChar v '/') && !(strContainsChar v '\\'),
      fun v => Resolved.file (pathJoin (galleryImagesDir root) v)) ]

/-- First-match-wins evaluation of an ordered rule list. -/
def firstMatchRule : List ((String → Bool) × (String → Resolved)) →
    (String → Resolved) → String → Resolved
  | [], dflt, v => dflt v
  | (p, act) :: rs, dflt, v => if p v then act v else firstMatchRule rs dflt v

/-- Stated from the specification: `resolve(imageRef)` returns `null`
exactly for empty (trimmed) input, and otherwise applies the six rules in
order, first match winning. -/
def resolveSpec (root image : String) : Option Resolved :=
  let v := jsTrimS image
  if v = "" then none
  else some (firstMatchRule (galleryRules root)
    (fun w => Resolved.file (pathJoin root w)) v)

/-- Split on the regex `\r?\n`: split at every `'\n'`, then remove one
trailing `'\r'` from each piece (done by `stripCR` below). -/
def splitOnNL : List Char → List (List Char)
  | [] => [[]]
  | c :: rest =>
    if c = '\n' then [] :: splitOnNL rest
    else
      match splitOnNL rest with
      | [] => [[c]]
      | l :: ls => (c :: l) :: ls

/-- Remove the `'\r'` that belonged to a `"\r\n"` separator. -/
def stripCR (l : List Char) : List Char :=
  if l.getLast? = some '\r' then l.dropLast else l

/-- `String(txt || '').split(/\r?\n/)`. -/
def splitLines (txt : String) : List (List Char) :=
  (splitOnNL txt.data).map stripCR

/-- Regex class `[A-Za-z]`. -/
def isAsciiLetter (c : Char) : Bool :=
  (decide (65 ≤ c.toNat) && decide (c.toNat ≤ 90)) ||
    (decide (97 ≤ c.toNat) && decide (c.toNat ≤ 122))

/-- Regex class `[A-Za-z\s\-]`. -/
def isKeyClass (c : Char) : Bool :=
  isAsciiLetter c || isJsWhitespace c || (c == '-')

/-- The regex line terminators that `.` does not match: `\n`, `\r`,
U+2028 and U+2029. -/
def isLineTerm (c : Char) : Bool :=
  decide (c.toNat = 10) || decide (c.toNat = 13) ||
    decide (c.toNat = 0x2028) || decide (c.toNat = 0x2029)

/-- Match one line against `^\s*([A-Za-z][A-Za-z\s\-]*)\s*:\s*(.*)\s*$`,
returning the two captures.  The greedy `[A-Za-z\s\-]*` can only give back
whitespace, which the following `\s*` re-consumes, so the `':'` must be the
first character after the maximal class run; the greedy `(.*)` runs to the
first line terminator, and the final `\s*$` forces everything after it to
be whitespace. -/
def matchKVLine (line : List Char) : Option (List Char × List Char) :=
  let afterWs := line.dropWhile isJsWhitespace
  match afterWs with
  | [] => none
  | c :: _ =>
    if isAsciiLetter c then
      let key := afterWs.takeWhile isKeyClass
      match afterWs.dropWhile isKeyClass with
      | ':' :: rest2 =>
        let rest3 := rest2.dropWhile isJsWhitespace
        let value := rest3.takeWhile (fun ch => !isLineTerm ch)
        let tail := rest3.dropWhile (fun ch => !isLineTerm ch)
        if tail.all isJsWhitespace then some (key, value) else none
      | _ => none
    else none

/-- `.replace(/\s+/g, '_')`: collapse every whitespace run to a single
underscore (structural recursion with an in-run flag). -/
def collapseWsAux : Bool → List Char → List Char
  | _, [] => []
  | inWs, c :: rest =>
    if isJsWhitespace c then
      (if inWs then [] else ['_']) ++ collapseWsAux true rest
    else c :: collapseWsAux false rest

/-- `m[1].trim().toLowerCase().replace(/\s+/g, '_')`. -/
def normalizeKey (key : List Char) : String :=
  ⟨collapseWsAux false ((jsTrim key).map toLowerAscii)⟩

/-- `pushLine`: first assignment stores the value, later assignments for
the same key append `"\n" + value`. -/
def kvPush : List (String × String) → String → String → List (String × String)
  | [], k, v => [(k, v)]
  | (k2, v2) :: rest, k, v =>
    if k2 = k then (k2, v2 ++ "\n" ++ v) :: rest
    else (k2, v2) :: kvPush rest k v

/-- The line loop of `parseKeyValueTxt`: a matching line starts a new
current key; a non-matching, non-blank line extends the current key, if
any; blank or keyless lines are dropped. -/
def parseKVLines : List (List Char) → Option String → List (String × String) →
    List (String × String)
  | [], _, out => out
  | line :: rest, currentKey, out =>
    match matchKVLine line with
    | some (key, value) =>
      let k := normalizeKey key
      parseKVLines rest (some k) (kvPush out k (⟨jsTrim value⟩ : String))
    | none =>
      if jsTrim line ≠ [] then
        match currentKey with
        | some k => parseKVLines rest currentKey (kvPush out k (⟨jsTrim line⟩ : String))
        | none => parseKVLines rest currentKey out
      else parseKVLines rest currentKey out

/-- `parseKeyValueTxt(txt)`, as an association list in insertion order.
(The JavaScript object also inherits `Object.prototype` properties such as
`constructor`; no field read by the pipeline collides with those, so a
plain association map is faithful for every key the code reads.) -/
def parseKeyValueTxt (txt : String) : List (String × String) :=
  parseKVLines (splitLines txt) none []

/-- `kv.key`, with `""` for an absent key (absent and `""` are both falsy
in the `||` fallback chains, so they are interchangeable downstream). -/
def kvGet (kv : List (String × String)) (k : String) : String :=
  match kv.find? (fun e => e.1 == k) with
  | some e => e.2
  | none => ""

/-- `f.toLowerCase().endsWith(ext)` for a lower-case extension. -/
def endsWithCI (ext f : String) : Bool :=
  ext.data.isSuffixOf (f.data.map toLowerAscii)

/-- `file.replace(/\.txt$/i, '')` (resp. `.json`): drop the extension when
it matches case-insensitively at the end. -/
def stripSuffixCI (ext f : String) : String :=
  if endsWithCI ext f then ⟨f.data.take (f.data.length - ext.data.length)⟩ else f

/-- Canonical Event record built by `buildEvents`. -/
structure EventItem where
  id : String
  title : String
  date : String
  time : String
  location : String
  link : String
  contact : String
  description : String
  sortKey : String
  source : String
deriving Repr, DecidableEq

/-- The per-file body of `buildEvents`: parse, apply the fallback chains,
and compute `sortKey`. -/
def buildEventItem (file content : String) : EventItem :=
  let kv := parseKeyValueTxt content
  let title := jsOr (kvGet kv "title") (jsOr (kvGet kv "event") (stripSuffixCI ".txt" file))
  let date := jsOr (kvGet kv "date") (jsOr (kvGet kv "when") (kvGet kv "on"))
  let time := kvGet kv "time"
  let location := jsOr (kvGet kv "location") (kvGet kv "where")
  let link := jsOr (kvGet kv "link") (kvGet kv "url")
  let contact := jsOr (kvGet kv "contact") (jsOr (kvGet kv "submitted_by")
    (jsOr (kvGet kv "submittedby") (kvGet kv "submitted")))
  let description := kvGet kv "description"
  { id := file, title := title, date := date, time := time, location := location,
    link := link, contact := contact, description := description,
    sortKey := jsOr date "9999-12-31" ++ "T" ++ jsOr time "00:00",
    source := "content/events" }

/-- Filename order used to list a source directory (`.sort()` on names,
resp. `localeCompare`), on (name, payload) pairs. -/
def nameLe {α : Type} (a b : String × α) : Prop :=
  lexLe a.1.data b.1.data = true

instance {α : Type} : DecidableRel (nameLe (α := α)) :=
  fun a b => by unfold nameLe; infer_instance

instance {α : Type} : IsTotal (String × α) nameLe :=
  ⟨fun a b => lexLe_total a.1.data b.1.data⟩

instance {α : Type} : IsTrans (String × α) nameLe :=
  ⟨fun _ _ _ => lexLe_trans⟩

/-- The `sortKey` comparator of `buildEvents`
(`(a,b) => String(a.sortKey).localeCompare(String(b.sortKey))`). -/
def eventLe (a b : EventItem) : Prop :=
  lexLe a.sortKey.data b.sortKey.data = true

instance : DecidableRel eventLe := fun a b => by unfold eventLe; infer_instance

instance : IsTotal EventItem eventLe :=
  ⟨fun a b => lexLe_total a.sortKey.data b.sortKey.data⟩

instance : IsTrans EventItem eventLe :=
  ⟨fun _ _ _ => lexLe_trans⟩

/-- `buildEvents()` on the `(filename, content)` listing of
`content/events`: keep `.txt` files, sort by filename, build each item,
then stable-sort by `sortKey`. -/
def buildEvents (files : List (String × String)) : List EventItem :=
  let fs := List.insertionSort nameLe (files.filter (fun f => endsWithCI ".txt" f.1))
  let items := fs.map (fun f => buildEventItem f.1 f.2)
  List.insertionSort eventLe items

/-- Validator message for an invalid date (shared text between the events,
news and gallery validators). -/
def invalidDateMsg (date : String) : String :=
  "Invalid date \"" ++ date ++ "\". Expected YYYY-MM-DD."

/-- A gallery meta object.  Each field holds the JavaScript coercion
`String(obj.field || '')` of the corresponding JSON value, with `""` for an
absent (or otherwise falsy) key; `tags` holds `asArray(obj.tags)` with its
entries coerced to strings. -/
structure GalleryObj where
  id : String
  title : String
  name : String
  caption : String
  date : String
  image : String
  image_filename : String
  src : String
  credit : String
  submitted_by : String
  submittedby : String
  description : String
  tags : List String
deriving Repr, DecidableEq

/-- A `GalleryObj` with every field absent. -/
def emptyGalleryObj : GalleryObj :=
  { id := "", title := "", name := "", caption := "", date := "", image := "",
    image_filename := "", src := "", credit := "", submitted_by := "",
    submittedby := "", description := "", tags := [] }

/-- The image-path normalization of `normalizeGallery`: a bare `images/...`
reference (after trim) is prefixed with `gallery/`; the spread `{...it,
image}` keeps every other field. -/
def rewriteImage (it : GalleryObj) : GalleryObj :=
  let img := jsTrimS it.image
  let image := if strStartsWith img "images/" then "gallery/" ++ img else img
  { it with image := image }

/-- The newest-first comparator of `normalizeGallery`
(`(a, b) => String(db).localeCompare(String(da))` with
`da = a?.date || a?.id || ''`). -/
def galleryDescLe (a b : GalleryObj) : Prop :=
  lexLe (jsOr b.date b.id).data (jsOr a.date a.id).data = true

instance : DecidableRel galleryDescLe :=
  fun a b => by unfold galleryDescLe; infer_instance

instance : IsTotal GalleryObj galleryDescLe :=
  ⟨fun a b => (lexLe_total (jsOr b.date b.id).data (jsOr a.date a.id).data)⟩

instance : IsTrans GalleryObj galleryDescLe :=
  ⟨fun _ _ _ h1 h2 => lexLe_trans h2 h1⟩

/-- The transformation core of `normalizeGallery`: sort the collected items
newest-first, then normalize each image path. -/
def normalizeGallery (items : List GalleryObj) : List GalleryObj :=
  (List.insertionSort galleryDescLe items).map rewriteImage

/-- The gallery input selection of `normalizeGallery`: the per-item
metadata directory (`.json` files, sorted; unparsable or non-object files
are skipped with a warning) takes precedence; otherwise the legacy
consolidated `gallery/index.json` item list; otherwise nothing. -/
def galleryItemsOf (metaFiles : Option (List (String × Option GalleryObj)))
    (legacy : Option (List GalleryObj)) : List GalleryObj :=
  match metaFiles with
  | some files =>
    (List.insertionSort nameLe (files.filter (fun f => endsWithCI ".json" f.1))).filterMap
      (fun f => f.2)
  | none =>
    match legacy with
    | some its => its
    | none => []

/-- `path.join(ROOT, 'gallery', 'meta')`. -/
def galleryMetaDirPath (root : String) : String :=
  pathJoin (pathJoin root "gallery") "meta"

/-- `path.relative(ROOT, p)` for a path under the root (the only use the
validator makes of it). -/
def relPath (root p : String) : String :=
  if (root ++ "/").data.isPrefixOf p.data
  then ⟨p.data.drop (root ++ "/").data.length⟩ else p

/-- Validator message for a gallery file with neither an `id` nor a
filename to derive it from. -/
def missingGalleryIdMsg : String :=
  "Missing \"id\" and could not derive from filename."

/-- Validator message for a missing gallery image. -/
def missingImageMsg : String :=
  "Missing required field \"image\"."

/-- Validator message for an unresolvable gallery image value. -/
def invalidImageValueMsg (image : String) : String :=
  "Invalid image value \"" ++ image ++ "\"."

/-- Validator message for an invalid gallery image URL. -/
def invalidImageUrlMsg (u : String) : String :=
  "Invalid image URL \"" ++ u ++ "\". Expected http(s)://..."

/-- Validator message for a gallery image file that does not exist. -/
def imageNotExistMsg (relValue image : String) : String :=
  "Image file does not exist: " ++ (relValue ++ (" (from \"" ++ (image ++ "\")")))

/-- Validator message for a duplicate gallery id. -/
def dupGalleryMsg (id : String) : String :=
  "Duplicate gallery id \"" ++ id ++ "\"."

/-- Stand-in for the `Invalid JSON: ...` message attached to an unparsable
source file (the suffix is the engine's parse error text). -/
def invalidJsonMsg : String :=
  "Invalid JSON"

/-- The id under which a gallery meta file is validated:
`String(obj.id || filenameBase).trim()`. -/
def galleryEntryId (file : String) (obj : GalleryObj) : String :=
  jsTrimS (jsOr obj.id (stripSuffixCI ".json" file))

/-- The required-image checks of `validateGallery` for one file: missing
image, unresolvable value, invalid URL, or nonexistent file. -/
def galleryImageErrors (root : String) (fsE : String → Bool) (fp image : String) :
    List (String × String) :=
  if image = "" then [(fp, missingImageMsg)]
  else
    match resolveGalleryImage root image with
    | none => [(fp, invalidImageValueMsg image)]
    | some (Resolved.url u) =>
      if !(isHttpUrlRequired u) then [(fp, invalidImageUrlMsg u)] else []
    | some (Resolved.file v) =>
      if !(fsE v) then [(fp, imageNotExistMsg (relPath root v) image)] else []

/-- The errors `validateGallery` records for one parsed gallery meta file
(warnings are not modelled).  `fsE` tells whether a resolved file path
exists on disk. -/
def galleryFileErrors (root : String) (fsE : String → Bool) (fp file : String)
    (obj : GalleryObj) (seen : List String) : List (String × String) :=
  let id := galleryEntryId file obj
  let date := jsTrimS obj.date
  let image := jsTrimS (jsOr obj.image (jsOr obj.image_filename obj.src))
  (if id = "" then [(fp, missingGalleryIdMsg)] else []) ++
  galleryImageErrors root fsE fp image ++
  (if (!(date == "")) && !(isIsoDate date) then [(fp, invalidDateMsg date)] else []) ++
  (if (!(id == "")) && seen.contains id then [(fp, dupGalleryMsg id)] else [])

/-- The file loop of `validateGallery`: an unparsable file contributes one
isolated error; the `seen` id set grows by each non-empty id. -/
def validateGalleryGo (root : String) (fsE : String → Bool) :
    List (String × Option GalleryObj) → List String → List (String × String)
  | [], _ => []
  | (file, none) :: rest, seen =>
    (pathJoin (galleryMetaDirPath root) file, invalidJsonMsg) ::
      validateGalleryGo root fsE rest seen
  | (file, some obj) :: rest, seen =>
    galleryFileErrors root fsE (pathJoin (galleryMetaDirPath root) file) file obj seen ++
      validateGalleryGo root fsE rest
        (if galleryEntryId file obj = "" then seen else galleryEntryId file obj :: seen)

/-- The `.json` listing of `gallery/meta`, sorted by filename. -/
def galleryListing (files : List (String × Option GalleryObj)) :
    List (String × Option GalleryObj) :=
  List.insertionSort nameLe (files.filter (fun f => endsWithCI ".json" f.1))

/-- `validateGallery` on the `(filename, parsed json)` listing of
`gallery/meta` (a `none` payload is an unparsable file). -/
def validateGallery (root : String) (fsE : String → Bool)
    (files : List (String × Option GalleryObj)) : List (String × String) :=
  validateGalleryGo root fsE (galleryListing files) []

/-- The validated id of a listing entry, `none` for an unparsable file. -/
def galleryEntryIdOf (e : String × Option GalleryObj) : Option String :=
  match e.2 with
  | some obj => some (galleryEntryId e.1 obj)
  | none => none

/-- The filenames, in listing order, whose validated id is `x`. -/
def galleryOccurrences (files : List (String × Option GalleryObj)) (x : String) :
    List String :=
  ((galleryListing files).filter (fun e => galleryEntryIdOf e == some x)).map
    (fun e => e.1)

/-- A news item.  Each field holds `String(obj.field || '')` with `""` for
an absent key. -/
structure NewsObj where
  id : String
  title : String
  date : String
  type : String
  summary : String
  body : String
  thumb : String
deriving Repr, DecidableEq

/-- The closed set of admissible news types. -/
def NEWS_TYPES : List String :=
  ["announcement", "updates", "field-notes", "in-the-news", "ideas", "admin", "qa"]

/-- Validator message for a missing required news field. -/
def missingFieldMsg (f : String) : String :=
  "Missing required field \"" ++ f ++ "\"."

/-- Validator message for an unknown news type. -/
def invalidTypeMsg (t : String) : String :=
  "Invalid type \"" ++ t ++ "\". Must be one of: " ++ String.intercalate ", " NEWS_TYPES

/-- Validator message for an invalid news thumb URL. -/
def invalidThumbMsg (t : String) : String :=
  "Invalid thumb \"" ++ t ++ "\". Expected http(s)://..."

/-- Validator message for a duplicate news id. -/
def dupNewsMsg (id : String) : String :=
  "Duplicate news id \"" ++ id ++ "\"."

/-- `path.join(ROOT, 'content', 'news')`. -/
def newsDirPath (root : String) : String :=
  pathJoin (pathJoin root "content") "news"

/-- The errors `validateNews` records for one parsed news file (warnings
are not modelled). -/
def newsFileErrors (fp : String) (obj : NewsObj) (seen : List String) :
    List (String × String) :=
  let id := jsTrimS obj.id
  let title := jsTrimS obj.title
  let date := jsTrimS obj.date
  let ty := jsTrimS obj.type
  let thumb := jsTrimS obj.thumb
  (if id = "" then [(fp, missingFieldMsg "id")] else []) ++
  (if title = "" then [(fp, missingFieldMsg "title")] else []) ++
  (if date = "" then [(fp, missingFieldMsg "date")] else []) ++
  (if (!(date == "")) && !(isIsoDate date) then [(fp, invalidDateMsg date)] else []) ++
  (if ty = "" then [(fp, missingFieldMsg "type")] else []) ++
  (if (!(ty == "")) && !(NEWS_TYPES.contains ty) then [(fp, invalidTypeMsg ty)] else []) ++
  (if (!(thumb == "")) && !(isHttpUrlOptional thumb) then [(fp, invalidThumbMsg thumb)] else []) ++
  (if (!(id == "")) && seen.contains id then [(fp, dupNewsMsg id)] else [])

/-- The per-entry errors of the news file loop (a `none` payload is an
unparsable file, reported and skipped). -/
def newsEntryErrors (root : String) (e : String × Option NewsObj)
    (seen : List String) : List (String × String) :=
  match e.2 with
  | some obj => newsFileErrors (pathJoin (newsDirPath root) e.1) obj seen
  | none => [(pathJoin (newsDirPath root) e.1, invalidJsonMsg)]

/-- `seenIds.add(id)` for one entry: only a non-empty id is recorded. -/
def newsSeenUpdate (seen : List String) (e : String × Option NewsObj) :
    List String :=
  match e.2 with
  | some obj => if jsTrimS obj.id = "" then seen else jsTrimS obj.id :: seen
  | none => seen

/-- The file loop of `validateNews`. -/
def validateNewsGo (root : String) : List (String × Option NewsObj) →
    List String → List (String × String)
  | [], _ => []
  | e :: rest, seen =>
    newsEntryErrors root e seen ++ validateNewsGo root rest (newsSeenUpdate seen e)

/-- The `.json` listing of `content/news`, sorted by filename. -/
def newsListing (files : List (String × Option NewsObj)) :
    List (String × Option NewsObj) :=
  List.insertionSort nameLe (files.filter (fun f => endsWithCI ".json" f.1))

/-- `validateNews` on the `(filename, parsed json)` listing of
`content/news`. -/
def validateNews (root : String) (files : List (String × Option NewsObj)) :
    List (String × String) :=
  validateNewsGo root (newsListing files) []

/-- The seen-id set after processing a list of entries. -/
def newsSeenAfter (seen : List String) : List (String × Option NewsObj) →
    List String
  | [] => seen
  | e :: rest => newsSeenAfter (newsSeenUpdate seen e) rest

/-- The validated id of a news listing entry, `none` for an unparsable
file. -/
def newsIdOf (e : String × Option NewsObj) : Option String :=
  match e.2 with
  | some obj => some (jsTrimS obj.id)
  | none => none

/-- Validator message for a missing event date. -/
def missingDateMsg : String :=
  "Missing date. Add \"Date:\" or use filename prefix \"YYYY-MM-DD-...\"."

/-- Validator message for an invalid event time. -/
def invalidTimeMsg (time : String) : String :=
  "Invalid time \"" ++ time ++ "\". Expected HH:mm (24h)."

/-- Validator message for an invalid event link. -/
def invalidLinkMsg (link : String) : String :=
  "Invalid link \"" ++ link ++ "\". Expected http(s)://..."

/-- Validator message for a duplicate event filename. -/
def dupEventMsg (file : String) : String :=
  "Duplicate event filename/id \"" ++ file ++ "\"."

/-- The errors `validateEvents` records for one event file (warnings, which
never block success, are not modelled).  `fp` is the file path used for
attribution and `seen` the set of already-processed filenames. -/
def eventFileErrors (fp file content : String) (seen : List String) :
    List (String × String) :=
  let kv := parseKeyValueTxt content
  let dateRaw := jsOr (kvGet kv "date") (jsOr (kvGet kv "when") (kvGet kv "on"))
  let dateFromName := filenameIsoDatePrefix file
  let date := jsOr dateRaw dateFromName
  let time := kvGet kv "time"
  let link := jsOr (kvGet kv "link") (kvGet kv "url")
  (if seen.contains file then [(fp, dupEventMsg file)] else []) ++
  (if !(nonEmpty date) then [(fp, missingDateMsg)] else []) ++
  (if nonEmpty date && !(isIsoDate date) then [(fp, invalidDateMsg date)] else []) ++
  (if !(isHHmmOptional time) then [(fp, invalidTimeMsg time)] else []) ++
  (if !(isHttpUrlOptional link) then [(fp, invalidLinkMsg link)] else [])

/-- `path.join(ROOT, 'content', 'events')`. -/
def eventsDirPath (root : String) : String :=
  pathJoin (pathJoin root "content") "events"

/-- The file loop of `validateEvents`, threading the `seen` filename set. -/
def validateEventsGo (dir : String) : List (String × String) → List String →
    List (String × String)
  | [], _ => []
  | (file, content) :: rest, seen =>
    eventFileErrors (pathJoin dir file) file content seen ++
      validateEventsGo dir rest (file :: seen)

/-- `validateEvents` on the `(filename, content)` listing of
`content/events`: keep `.txt` files, sort by name, validate each. -/
def validateEvents (root : String) (files : List (String × String)) :
    List (String × String) :=
  validateEventsGo (eventsDirPath root)
    (List.insertionSort nameLe (files.filter (fun f => endsWithCI ".txt" f.1))) []

/-- A JSON value, as produced by the builders (only strings, arrays and
objects occur in their outputs). -/
inductive JVal where
  | str (s : String)
  | arr (xs : List JVal)
  | obj (fields : List (String × JVal))

/-- A run of `n` spaces. -/
def spacesN (n : Nat) : String :=
  ⟨List.replicate n ' '⟩

/-- A lower-case hexadecimal digit. -/
def hexDigit (n : Nat) : Char :=
  if n < 10 then digitChar n else Char.ofNat (87 + n)

/-- The escaping `JSON.stringify` applies inside a string literal. -/
def jsonEscapeChar (c : Char) : String :=
  if c = '\x22' then "\\\x22"
  else if c = '\\' then "\\\\"
  else if c = '\n' then "\\n"
  else if c = '\r' then "\\r"
  else if c = '\t' then "\\t"
  else if c = '\x08' then "\\b"
  else if c = '\x0c' then "\\f"
  else if c.toNat < 32 then
    "\\u00" ++ ⟨[hexDigit (c.toNat / 16), hexDigit (c.toNat % 16)]⟩
  else ⟨[c]⟩

/-- A JSON string literal. -/
def jsonStr (s : String) : String :=
  "\x22" ++ String.join (s.data.map jsonEscapeChar) ++ "\x22"

mutual

/-- `JSON.stringify(v, null, 2)` at nesting indentation `ind`. -/
def stringifyV : Nat → JVal → String
  | _, .str s => jsonStr s
  | _, .arr [] => "[]"
  | ind, .arr (x :: xs) =>
    "[\n" ++ String.intercalate ",\n" (stringifyItems (ind + 2) (x :: xs)) ++
      "\n" ++ spacesN ind ++ "]"
  | _, .obj [] => "\x7b\x7d"
  | ind, .obj (f :: fs) =>
    "\x7b\n" ++ String.intercalate ",\n" (stringifyFields (ind + 2) (f :: fs)) ++
      "\n" ++ spacesN ind ++ "\x7d"

/-- The serialized elements of an array, each on its own indented line. -/
def stringifyItems : Nat → List JVal → List String
  | _, [] => []
  | ind, x :: xs => (spacesN ind ++ stringifyV ind x) :: stringifyItems ind xs

/-- The serialized fields of an object, each on its own indented line. -/
def stringifyFields : Nat → List (String × JVal) → List String
  | _, [] => []
  | ind, (k, v) :: fs =>
    (spacesN ind ++ jsonStr k ++ ": " ++ stringifyV ind v) :: stringifyFields ind fs

end

/-- The serialized Event record, fields in insertion order. -/
def eventItemJ (it : EventItem) : JVal :=
  JVal.obj [("id", JVal.str it.id), ("title", JVal.str it.title),
    ("date", JVal.str it.date), ("time", JVal.str it.time),
    ("location", JVal.str it.location), ("link", JVal.str it.link),
    ("contact", JVal.str it.contact), ("description", JVal.str it.description),
    ("sortKey", JVal.str it.sortKey), ("source", JVal.str it.source)]

/-- The bytes `buildEvents` writes to `data/events/events.json`. -/
def eventsDocJson (files : List (String × String)) : String :=
  stringifyV 0 (JVal.obj [("items", JVal.arr ((buildEvents files).map eventItemJ))])

/-- Canonical Link record built by `buildLinks`. -/
structure LinkItem where
  id : String
  title : String
  url : String
  description : String
  category : String
  sortKey : String
  source : String
deriving Repr, DecidableEq

/-- The per-file body of `buildLinks`. -/
def buildLinkItem (file content : String) : LinkItem :=
  let kv := parseKeyValueTxt content
  let title := jsOr (kvGet kv "title") (stripSuffixCI ".txt" file)
  let url := jsOr (kvGet kv "url") (kvGet kv "link")
  let description := kvGet kv "description"
  let category := jsOr (kvGet kv "category") "General"
  { id := file, title := title, url := url, description := description,
    category := category, sortKey := category ++ "::" ++ title,
    source := "content/links" }

/-- The `sortKey` comparator of `buildLinks`. -/
def linkLe (a b : LinkItem) : Prop :=
  lexLe a.sortKey.data b.sortKey.data = true

instance : DecidableRel linkLe := fun a b => by unfold linkLe; infer_instance

instance : IsTotal LinkItem linkLe :=
  ⟨fun a b => lexLe_total a.sortKey.data b.sortKey.data⟩

instance : IsTrans LinkItem linkLe :=
  ⟨fun _ _ _ => lexLe_trans⟩

/-- `buildLinks()` on the `(filename, content)` listing of `content/links`. -/
def buildLinks (files : List (String × String)) : List LinkItem :=
  let fs := List.insertionSort nameLe (files.filter (fun f => endsWithCI ".txt" f.1))
  List.insertionSort linkLe (fs.map (fun f => buildLinkItem f.1 f.2))

/-- The serialized Link record. -/
def linkItemJ (it : LinkItem) : JVal :=
  JVal.obj [("id", JVal.str it.id), ("title", JVal.str it.title),
    ("url", JVal.str it.url), ("description", JVal.str it.description),
    ("category", JVal.str it.category), ("sortKey", JVal.str it.sortKey),
    ("source", JVal.str it.source)]

/-- The bytes `buildLinks` writes to `data/links/links.json`. -/
def linksDocJson (files : List (String × String)) : String :=
  stringifyV 0 (JVal.obj [("items", JVal.arr ((buildLinks files).map linkItemJ))])

/-- The serialized Gallery record (the model fixes the field order; the
engine keeps each source object's own key order, which is likewise a pure
function of the unchanged source bytes). -/
def galleryItemJ (it : GalleryObj) : JVal :=
  JVal.obj [("id", JVal.str it.id), ("title", JVal.str it.title),
    ("name", JVal.str it.name), ("caption", JVal.str it.caption),
    ("date", JVal.str it.date), ("image", JVal.str it.image),
    ("image_filename", JVal.str it.image_filename), ("src", JVal.str it.src),
    ("credit", JVal.str it.credit), ("submitted_by", JVal.str it.submitted_by),
    ("submittedby", JVal.str it.submittedby),
    ("description", JVal.str it.description),
    ("tags", JVal.arr (it.tags.map JVal.str))]

/-- The bytes `normalizeGallery` writes to `data/gallery/gallery.json`. -/
def galleryDocJson (metaFiles : Option (List (String × Option GalleryObj)))
    (legacy : Option (List GalleryObj)) : String :=
  stringifyV 0 (JVal.obj [("items",
    JVal.arr ((normalizeGallery (galleryItemsOf metaFiles legacy)).map galleryItemJ))])

/-- The fixed example document of `buildMapsPlaceholder`. -/
def mapsPlaceholderDoc : JVal :=
  JVal.obj [("items", JVal.arr [
    JVal.obj [("id", JVal.str "north-shore-forays"),
      ("title", JVal.str "North Shore Foray Spots (placeholder)"),
      ("description", JVal.str "Add GeoJSON layers or embedded maps here later."),
      ("type", JVal.str "placeholder"),
      ("url", JVal.str "")]])]

/-- `buildMapsPlaceholder()`: the content of `data/maps/maps.json` after a
run, given its content before the run (`none` when the file is absent): the
placeholder is written only when no file exists yet. -/
def buildMapsPlaceholder (existing : Option String) : String :=
  match existing with
  | some s => s
  | none => stringifyV 0 mapsPlaceholderDoc

/-- The source files a build run reads. -/
structure BuildSources where
  eventFiles : List (String × String)
  linkFiles : List (String × String)
  galleryMeta : Option (List (String × Option GalleryObj))
  galleryLegacy : Option (List GalleryObj)

/-- The bytes of the four output documents after a build run. -/
structure BuildOutputs where
  eventsOut : String
  linksOut : String
  galleryOut : String
  mapsOut : String
deriving Repr, DecidableEq

/-- One run of `build-data.mjs`: build events, links and gallery from the
sources and seed the maps placeholder when absent. -/
def runBuilders (src : BuildSources) (mapsFile : Option String) : BuildOutputs :=
  { eventsOut := eventsDocJson src.eventFiles,
    linksOut := linksDocJson src.linkFiles,
    galleryOut := galleryDocJson src.galleryMeta src.galleryLegacy,
    mapsOut := buildMapsPlaceholder mapsFile }

theorem lexLe_refl (l : List Char) : lexLe l l = true := by
  induction l with
  | nil => rfl
  | cons a as ih => simp [lexLe, ih]

theorem lexLt_append : ∀ {a b : List Char}, a.length = b.length →
    lexLt a b = true → ∀ (u v : List Char), lexLt (a ++ u) (b ++ v) = true
  | [], [], _, h, _, _ => by simp [lexLt] at h
  | a :: as, b :: bs, hl, h, u, v => by
    simp only [lexLt, Bool.or_eq_true, Bool.and_eq_true, decide_eq_true_eq] at h ⊢
    rcases h with h | ⟨h, h'⟩
    · exact Or.inl h
    · exact Or.inr ⟨h, lexLt_append (by simpa using hl) h' u v⟩

theorem lexLt_le_false : ∀ {a b : List Char},
    lexLt a b = true → lexLe b a = false
  | [], _ :: _, _ => rfl
  | a :: as, b :: bs, h => by
    simp only [lexLt, Bool.or_eq_true, Bool.and_eq_true, decide_eq_true_eq] at h
    simp only [lexLe, Bool.or_eq_false_iff, Bool.and_eq_false_iff,
      decide_eq_false_iff_not, not_lt]
    rcases h with h | ⟨h, h'⟩
    · exact ⟨Nat.le_of_lt h, Or.inl (Nat.ne_of_gt h)⟩
    · exact ⟨Nat.le_of_eq h, Or.inr (lexLt_le_false h')⟩

theorem toNat_ofNat_lt {n : Nat} (h : n < 55296) : (Char.ofNat n).toNat = n := by
  have hv : n.isValidChar := Or.inl h
  rw [Char.ofNat, dif_pos hv]
  simp [Char.ofNatAux, Char.toNat, UInt32.toNat]

theorem toNat_digitChar {n : Nat} (h : n ≤ 9) : (digitChar n).toNat = 48 + n := by
  rw [digitChar, toNat_ofNat_lt (by omega)]

theorem digitChar_digitVal {c : Char} (h : isAsciiDigit c = true) :
    digitChar (digitVal c) = c := by
  simp only [isAsciiDigit, Bool.and_eq_true, decide_eq_true_eq] at h
  have : 48 + digitVal c = c.toNat := by simp only [digitVal]; omega
  rw [digitChar, this, Char.ofNat_toNat]

theorem pad2_digits {a b : Char} (ha : isAsciiDigit a = true)
    (hb : isAsciiDigit b = true) :
    pad2 (10 * digitVal a + digitVal b) = [a, b] := by
  have ha' := ha; have hb' := hb
  simp only [isAsciiDigit, Bool.and_eq_true, decide_eq_true_eq] at ha' hb'
  have h1 : (10 * digitVal a + digitVal b) / 10 % 10 = digitVal a := by
    simp only [digitVal]; omega
  have h2 : (10 * digitVal a + digitVal b) % 10 = digitVal b := by
    simp only [digitVal]; omega
  rw [pad2, h1, h2, digitChar_digitVal ha, digitChar_digitVal hb]

theorem lexLt_pad2 {m n : Nat} (hm : m ≤ 99) (hn : n ≤ 99) (h : m < n) :
    lexLt (pad2 m) (pad2 n) = true := by
  simp only [pad2, lexLt, Bool.or_eq_true, Bool.and_eq_true, decide_eq_true_eq]
  have d1 : m / 10 % 10 ≤ 9 := by omega
  have d2 : m % 10 ≤ 9 := by omega
  have d3 : n / 10 % 10 ≤ 9 := by omega
  have d4 : n % 10 ≤ 9 := by omega
  rw [toNat_digitChar d1, toNat_digitChar d2, toNat_digitChar d3, toNat_digitChar d4]
  by_cases hd : m / 10 < n / 10
  · exact Or.inl (by omega)
  · have : m / 10 = n / 10 := by omega
    refine Or.inr ⟨by omega, Or.inl (by omega)⟩

theorem lexLt_pad4 {m n : Nat} (hm : m ≤ 9999) (hn : n ≤ 9999) (h : m < n) :
    lexLt (pad4 m) (pad4 n) = true := by
  by_cases hd : m / 100 < n / 100
  · exact lexLt_append (by simp [pad2]) (lexLt_pad2 (by omega) (by omega) hd) _ _
  · have he : m / 100 = n / 100 := by omega
    have hlt : m % 100 < n % 100 := by omega
    simp only [pad4, he]
    have hrec : lexLt (pad2 (m % 100)) (pad2 (n % 100)) = true :=
      lexLt_pad2 (by omega) (by omega) hlt
    clear hd
    generalize pad2 (n / 100) = p
    induction p with
    | nil => simpa using hrec
    | cons c cs ih => simp [lexLt, ih]

theorem lexLt_irrefl (l : List Char) : lexLt l l = false := by
  induction l with
  | nil => rfl
  | cons a as ih => simp [lexLt, ih]

theorem ne_of_lexLt {a b : List Char} (h : lexLt a b = true) : a ≠ b := by
  intro he; rw [he, lexLt_irrefl] at h; exact Bool.noConfusion h

theorem daysInMonth_le {y m : Nat} : daysInMonth y m ≤ 31 := by
  rw [daysInMonth]; split
  · split <;> omega
  · split <;> omega

theorem daysInMonth_pos {y m : Nat} : 1 ≤ daysInMonth y m := by
  rw [daysInMonth]; split
  · split <;> omega
  · split <;> omega

theorem parseIsoShape_format {cs : List Char} {y m d : Nat}
    (h : parseIsoShape cs = some (y, m, d)) :
    formatIso y m d = cs ∧ y ≤ 9999 ∧ m ≤ 99 ∧ d ≤ 99 := by
  rcases cs with _ | ⟨a1, _ | ⟨a2, _ | ⟨a3, _ | ⟨a4, _ | ⟨a5, _ | ⟨a6, _ | ⟨a7,
    _ | ⟨a8, _ | ⟨a9, _ | ⟨a10, _ | ⟨a11, rest⟩⟩⟩⟩⟩⟩⟩⟩⟩⟩⟩ <;>
    simp only [parseIsoShape, reduceCtorEq] at h
  rw [ite_eq_iff] at h
  rcases h with ⟨hc, he⟩ | ⟨_, he⟩
  · simp only [Bool.and_eq_true, beq_iff_eq] at hc
    obtain ⟨⟨⟨⟨⟨⟨⟨⟨⟨h1, h2⟩, h3⟩, h4⟩, h5⟩, h6⟩, h7⟩, h8⟩, h9⟩, h10⟩ := hc
    injection he with he
    simp only [Prod.mk.injEq] at he
    obtain ⟨hy, hm, hd⟩ := he
    have b1 := h1; have b2 := h2; have b3 := h3; have b4 := h4
    have b6 := h6; have b7 := h7; have b9 := h9; have b10 := h10
    simp only [isAsciiDigit, Bool.and_eq_true, decide_eq_true_eq] at b1 b2 b3 b4 b6 b7 b9 b10
    constructor
    · have hy4 : pad4 y = [a1, a2, a3, a4] := by
        subst hy
        have e1 : (1000 * digitVal a1 + 100 * digitVal a2 + 10 * digitVal a3 +
            digitVal a4) / 100 = 10 * digitVal a1 + digitVal a2 := by
          simp only [digitVal]; omega
        have e2 : (1000 * digitVal a1 + 100 * digitVal a2 + 10 * digitVal a3 +
            digitVal a4) % 100 = 10 * digitVal a3 + digitVal a4 := by
          simp only [digitVal]; omega
        rw [pad4, e1, e2, pad2_digits h1 h2, pad2_digits h3 h4]
        rfl
      have hm2 : pad2 m = [a6, a7] := by subst hm; exact pad2_digits h6 h7
      have hd2 : pad2 d = [a9, a10] := by subst hd; exact pad2_digits h9 h10
      simp [formatIso, hy4, hm2, hd2, h5, h8]
    · refine ⟨?_, ?_, ?_⟩ <;> [subst hy; subst hm; subst hd] <;>
        simp only [digitVal] <;> omega
  · exact Option.noConfusion he

theorem mem_formatIso_ne {y m m' d d' : Nat} (hm : m ≤ 99) (hm' : m' ≤ 99)
    (hne : m ≠ m') : formatIso y m d ≠ formatIso y m' d' := by
  intro h
  rw [formatIso, formatIso] at h
  have h2 := List.append_cancel_left h
  injection h2 with _ h3
  have h4 := List.append_inj_left h3 (by simp [pad2])
  rcases Nat.lt_or_ge m m' with hlt | hge
  · exact absurd h4 (ne_of_lexLt (lexLt_pad2 hm hm' hlt))
  · have hlt : m' < m := by omega
    exact absurd h4.symm (ne_of_lexLt (lexLt_pad2 hm' hm hlt))

/-- C1 counterexample: `isIsoDate` trims its argument before the anchored
`\d{4}-\d{2}-\d{2}` test, so `" 2024-01-01"` (leading space) is accepted
even though the string itself does not match the pattern: the claimed
equivalence fails on whitespace-padded input. -/
theorem claim_C1_cex :
    isIsoDate " 2024-01-01" = true ∧
    parseIsoShape (String.data " 2024-01-01") = none := by
  constructor
  · decide
  · decide

/-- C1 (amended): for every string `s`, `isIsoDate s` is true iff the
*trimmed* `s` matches `\d{4}-\d{2}-\d{2}` and denotes a real calendar date
(month in `1..12`, day within the month's length, leap years per the
Gregorian rule), as decided by round-tripping through a UTC date
construction; in particular `"2024-02-29"` is accepted as a leap day while
`"2023-02-29"` and `"2024-13-01"` are rejected. -/
theorem claim_C1_amended :
    (∀ s : String, isIsoDate s = isoDateSpec (jsTrim s.data)) ∧
    isIsoDate "2024-02-29" = true ∧ isIsoDate "2023-02-29" = false ∧
    isIsoDate "2024-13-01" = false := by
  refine ⟨?_, by decide, by decide, by decide⟩
  intro s
  cases hp : parseIsoShape (jsTrim s.data) with
  | none => simp [isIsoDate, isoDateSpec, hp]
  | some t =>
    obtain ⟨y, m, d⟩ := t
    obtain ⟨hfmt, hy, hm99, hd99⟩ := parseIsoShape_format hp
    by_cases hc : 1 ≤ m ∧ m ≤ 12 ∧ 1 ≤ d ∧ d ≤ 31
    · by_cases hdm : d ≤ daysInMonth y m
      · have hcons : jsDateConstructUTC y m d = some (y, m, d) := by
          rw [jsDateConstructUTC, if_pos hc, if_pos hdm]
        simp only [isIsoDate, isoDateSpec, hp, hcons]
        rw [← hfmt]
        simp [hc.1, hc.2.1, hc.2.2.1, hdm]
      · have hcons : jsDateConstructUTC y m d =
            some (y, m + 1, d - daysInMonth y m) := by
          rw [jsDateConstructUTC, if_pos hc, if_neg hdm]
        simp only [isIsoDate, isoDateSpec, hp, hcons]
        rw [← hfmt]
        have hne : formatIso y (m + 1) (d - daysInMonth y m) ≠ formatIso y m d :=
          mem_formatIso_ne (by omega) (by omega) (by omega)
        simp [hne, hdm]
    · have hcons : jsDateConstructUTC y m d = none := by
        rw [jsDateConstructUTC, if_neg hc]
      simp only [isIsoDate, isoDateSpec, hp, hcons]
      have h31 : daysInMonth y m ≤ 31 := daysInMonth_le
      cases hb : decide (1 ≤ m) && decide (m ≤ 12) && decide (1 ≤ d) &&
          decide (d ≤ daysInMonth y m)
      · rfl
      · simp only [Bool.and_eq_true, decide_eq_true_eq] at hb
        exact absurd ⟨hb.1.1.1, hb.1.1.2, hb.1.2, le_trans hb.2 h31⟩ hc

theorem toNat_of_toLowerAscii {c : Char} {t : Char} (h : toLowerAscii c = t)
    (ht : 97 ≤ t.toNat ∧ t.toNat ≤ 122) :
    c.toNat = t.toNat ∨ c.toNat = t.toNat - 32 := by
  by_cases hc : 65 ≤ c.toNat ∧ c.toNat ≤ 90
  · rw [toLowerAscii, if_pos hc] at h
    have := congrArg Char.toNat h
    rw [toNat_ofNat_lt (by omega)] at this
    omega
  · rw [toLowerAscii, if_neg hc] at h
    exact Or.inl (congrArg Char.toNat h)

theorem not_ws_of_ascii_letter {c : Char} (h : 65 ≤ c.toNat ∧ c.toNat ≤ 122) :
    isJsWhitespace c = false := by
  simp only [isJsWhitespace, Bool.or_eq_false_iff, Bool.and_eq_false_iff,
    decide_eq_false_iff_not]
  omega

theorem jsTrim_eq_self {cs : List Char}
    (h1 : ∀ c, cs.head? = some c → isJsWhitespace c = false)
    (h2 : ∀ c, cs.getLast? = some c → isJsWhitespace c = false) :
    jsTrim cs = cs := by
  cases cs with
  | nil => rfl
  | cons a t =>
    have ha : isJsWhitespace a = false := h1 a rfl
    have key : List.dropWhile isJsWhitespace ((a :: t).reverse) = (a :: t).reverse := by
      cases hr : (a :: t).reverse with
      | nil => rfl
      | cons b u =>
        have hb : isJsWhitespace b = false :=
          h2 b (by rw [← List.head?_reverse, hr]; rfl)
        rw [List.dropWhile_cons, hb]
        simp
    rw [jsTrim, List.dropWhile_cons, ha]
    simp only [Bool.false_eq_true, if_false]
    rw [key, List.reverse_reverse]

theorem stripCIPrefix_append : ∀ (pre rest : List Char),
    stripCIPrefix (pre.map toLowerAscii) (pre ++ rest) = some rest
  | [], _ => rfl
  | c :: cs, rest => by
    simp [stripCIPrefix, stripCIPrefix_append cs rest]

theorem stripHttpScheme_http {pre : List Char} (rest : List Char)
    (hmap : pre.map toLowerAscii = "http://".data) :
    stripHttpScheme (pre ++ rest) = some rest := by
  rw [show ("http://".data) = ['h', 't', 't', 'p', ':', '/', '/'] from rfl] at hmap
  rcases pre with _ | ⟨p1, _ | ⟨p2, _ | ⟨p3, _ | ⟨p4, _ | ⟨p5, _ | ⟨p6,
      _ | ⟨p7, tl⟩⟩⟩⟩⟩⟩⟩ <;>
    simp only [List.map_cons, List.map_nil, List.cons.injEq, reduceCtorEq,
      List.map_eq_nil_iff, and_false, false_and] at hmap
  obtain ⟨e1, e2, e3, e4, e5, e6, e7, rfl⟩ := hmap
  have hs : ¬ (toLowerAscii p5 = 's') := by rw [e5]; decide
  simp only [stripHttpScheme]
  simp [stripCIPrefix, e1, e2, e3, e4, e5, e6, e7, hs]

theorem stripHttpScheme_https {pre : List Char} (rest : List Char)
    (hmap : pre.map toLowerAscii = "https://".data) :
    stripHttpScheme (pre ++ rest) = some rest := by
  rw [show ("https://".data) = ['h', 't', 't', 'p', 's', ':', '/', '/'] from rfl] at hmap
  rcases pre with _ | ⟨p1, _ | ⟨p2, _ | ⟨p3, _ | ⟨p4, _ | ⟨p5, _ | ⟨p6,
      _ | ⟨p7, _ | ⟨p8, tl⟩⟩⟩⟩⟩⟩⟩⟩ <;>
    simp only [List.map_cons, List.map_nil, List.cons.injEq, reduceCtorEq,
      List.map_eq_nil_iff, and_false, false_and] at hmap
  obtain ⟨e1, e2, e3, e4, e5, e6, e7, e8, rfl⟩ := hmap
  simp only [stripHttpScheme]
  simp [stripCIPrefix, e1, e2, e3, e4, e5, e6, e7, e8]

/-- C3: `resolveGalleryImage` returns `null` exactly on empty trimmed
input, and otherwise applies the six classification rules in order with
first match winning, exactly as the specification's ordered rule list
`galleryRules` (plus the catch-all sixth rule) prescribes. -/
theorem claim_C3 :
    ∀ (root image : String), resolveGalleryImage root image = resolveSpec root image := by
  intro root image
  simp only [resolveGalleryImage, resolveSpec, galleryRules, firstMatchRule]
  split_ifs <;> rfl

/-- C10: the http(s) scheme is matched case-insensitively at the public
interface: for every string that is a letter-case spelling of `http://` or
`https://` followed by a non-empty run of non-whitespace characters,
`isHttpUrlRequired` and `isHttpUrlOptional` return true, and
`resolveGalleryImage` classifies the string as an external URL. -/
theorem claim_C10 :
    ∀ (v : String) (pre rest : List Char),
      v.data = pre ++ rest →
      (pre.map toLowerAscii = "http://".data ∨
        pre.map toLowerAscii = "https://".data) →
      rest ≠ [] →
      (∀ c ∈ rest, isJsWhitespace c = false) →
      isHttpUrlRequired v = true ∧ isHttpUrlOptional v = true ∧
      ∀ root : String, resolveGalleryImage root v = some (Resolved.url v) := by
  intro v pre rest hdata hpre hne hws
  obtain ⟨r, rs, rfl⟩ : ∃ r rs, rest = r :: rs := by
    cases rest with
    | nil => exact absurd rfl hne
    | cons r rs => exact ⟨r, rs, rfl⟩
  have hschema : stripHttpScheme (pre ++ (r :: rs)) = some (r :: rs) := by
    rcases hpre with h | h
    · exact stripHttpScheme_http _ h
    · exact stripHttpScheme_https _ h
  have hpre_ne : pre ≠ [] := by
    rintro rfl
    rcases hpre with h | h <;> exact absurd h (by decide)
  have hheadlow : ∀ p ps, pre = p :: ps → toLowerAscii p = 'h' := by
    intro p ps hpp
    rcases hpre with h | h <;> rw [hpp] at h <;>
      simp only [List.map_cons,
        show ("http://".data) = ['h', 't', 't', 'p', ':', '/', '/'] from rfl,
        show ("https://".data) = ['h', 't', 't', 'p', 's', ':', '/', '/'] from rfl,
        List.cons.injEq] at h <;> exact h.1
  have htrim : jsTrim v.data = v.data := by
    apply jsTrim_eq_self
    · intro c hc
      rcases hp : pre with _ | ⟨p, ps⟩
      · exact absurd hp hpre_ne
      · rw [hdata, hp] at hc
        simp only [List.cons_append, List.head?_cons, Option.some.injEq] at hc
        have hl := hheadlow p ps hp
        rw [← hc]
        have hn := toNat_of_toLowerAscii hl (by decide)
        rw [show ('h'.toNat) = 104 from rfl] at hn
        exact not_ws_of_ascii_letter (by omega)
    · intro c hc
      rw [hdata, List.getLast?_append_of_ne_nil _ hne] at hc
      have hmem : c ∈ (r :: rs).getLast? := by rw [hc]; rfl
      exact hws c (List.mem_of_mem_getLast? hmem)
  have hvdata_ne : v.data ≠ [] := by
    rw [hdata]
    rcases hp : pre with _ | ⟨p, ps⟩
    · exact absurd hp hpre_ne
    · simp
  have hmatch : (match stripHttpScheme (pre ++ (r :: rs)) with
      | some w => !w.isEmpty && w.all (fun c => !isJsWhitespace c)
      | none => false) = true := by
    rw [hschema]
    show (!(r :: rs).isEmpty && (r :: rs).all (fun c => !isJsWhitespace c)) = true
    simp only [List.isEmpty_cons, Bool.not_false, Bool.true_and, List.all_eq_true]
    intro c hcm
    rw [hws c hcm]
    rfl
  refine ⟨?_, ?_, ?_⟩
  · simp only [isHttpUrlRequired]
    rw [htrim, hdata]
    rw [if_neg (by simp)]
    exact hmatch
  · simp only [isHttpUrlOptional]
    rw [htrim, hdata]
    rw [if_neg (by simp)]
    exact hmatch
  · intro root
    have hmk : jsTrimS v = v := by
      show (⟨jsTrim v.data⟩ : String) = v
      rw [htrim]
    have hvne : v ≠ "" := fun he => hvdata_ne (by rw [he])
    have hsw : startsWithHttpCI v.data = true := by
      rw [hdata]; simp [startsWithHttpCI, hschema]
    simp only [resolveGalleryImage, hmk]
    rw [if_neg hvne, if_pos hsw]

theorem jsOr_left_empty (b : String) : jsOr "" b = b := rfl

theorem lexLt_append_left (p : List Char) {a b : List Char}
    (h : lexLt a b = true) : lexLt (p ++ a) (p ++ b) = true := by
  induction p with
  | nil => simpa using h
  | cons c cs ih => simp [lexLt, ih]

theorem lexLt_formatIso_max {y m d : Nat} (hy : y ≤ 9999) (hm : m ≤ 12)
    (hd : d ≤ 31) (hne : ¬(y = 9999 ∧ m = 12 ∧ d = 31)) :
    lexLt (formatIso y m d) (formatIso 9999 12 31) = true := by
  rcases Nat.lt_or_ge y 9999 with h | h
  · exact lexLt_append (by simp [pad4, pad2]) (lexLt_pad4 hy (le_refl _) h) _ _
  · have hy9 : y = 9999 := by omega
    subst hy9
    rcases Nat.lt_or_ge m 12 with h2 | h2
    · have hm2 : lexLt (pad2 m) (pad2 12) = true :=
        lexLt_pad2 (by omega) (by omega) h2
      have hstep := lexLt_append (by simp [pad2]) hm2 ('-' :: pad2 d) ('-' :: pad2 31)
      have h3 := lexLt_append_left (pad4 9999 ++ ['-']) hstep
      simpa [formatIso, List.append_assoc] using h3
    · have hm12 : m = 12 := by omega
      subst hm12
      have hd31 : d < 31 := by
        rcases Nat.lt_or_ge d 31 with h3 | h3
        · exact h3
        · exact absurd ⟨rfl, rfl, by omega⟩ hne
      have hd2 : lexLt (pad2 d) (pad2 31) = true :=
        lexLt_pad2 (by omega) (by omega) hd31
      have h3 := lexLt_append_left (pad4 9999 ++ '-' :: (pad2 12 ++ ['-'])) hd2
      simpa [formatIso, List.append_assoc] using h3

/-- C2 counterexample: with an unvalidated date string (the builder passes
the date through unvalidated), the event with the empty date field is built
*before* the event whose date field is the non-empty string `"zzzz"` — the
`9999-12-31` sentinel does not sort after every non-empty date. -/
theorem claim_C2_cex :
    (buildEvents [("a.txt", "Date: zzzz"), ("b.txt", "Title: B")]).map
        (fun it => it.date) = ["", "zzzz"] ∧
      (buildEvents [("a.txt", "Date: zzzz"), ("b.txt", "Title: B")]).map
        (fun it => it.sortKey) = ["9999-12-31T00:00", "zzzzT00:00"] := by
  constructor <;> decide

/-- C2 (amended): in the events document, every item's `sortKey` equals
`"<date or 9999-12-31>T<time or 00:00>"` computed from its own fields, the
`sortKey` values are non-decreasing by array index, and an event whose date
field is empty appears after every event whose date field is exactly a
valid calendar date `YYYY-MM-DD` other than `9999-12-31`. -/
theorem claim_C2_amended :
    ∀ files : List (String × String),
      (∀ it ∈ buildEvents files,
        it.sortKey = jsOr it.date "9999-12-31" ++ "T" ++ jsOr it.time "00:00") ∧
      (∀ i j : Fin (buildEvents files).length, i ≤ j →
        lexLe ((buildEvents files).get i).sortKey.data
          ((buildEvents files).get j).sortKey.data = true) ∧
      (∀ i j : Fin (buildEvents files).length,
        ((buildEvents files).get i).date = "" →
        isoDateSpec ((buildEvents files).get j).date.data = true →
        ((buildEvents files).get j).date ≠ "9999-12-31" →
        (j : Nat) < (i : Nat)) := by
  intro files
  have hmemP : ∀ it ∈ buildEvents files,
      it.sortKey = jsOr it.date "9999-12-31" ++ "T" ++ jsOr it.time "00:00" := by
    intro it hit
    simp only [buildEvents, List.mem_insertionSort, List.mem_map] at hit
    obtain ⟨f, _, rfl⟩ := hit
    rfl
  have hsorted : List.Sorted eventLe (buildEvents files) :=
    List.sorted_insertionSort eventLe _
  refine ⟨hmemP, ?_, ?_⟩
  · intro i j hij
    rcases eq_or_lt_of_le hij with he | hlt
    · rw [he]; exact lexLe_refl _
    · exact hsorted.rel_get_of_lt hlt
  · intro i j hdi hspec hne
    cases hp : parseIsoShape ((buildEvents files).get j).date.data with
    | none =>
      simp only [isoDateSpec, hp] at hspec
      exact Bool.noConfusion hspec
    | some t =>
      obtain ⟨y, m, d⟩ := t
      have hval : 1 ≤ m ∧ m ≤ 12 ∧ 1 ≤ d ∧ d ≤ daysInMonth y m := by
        simp only [isoDateSpec, hp, Bool.and_eq_true, decide_eq_true_eq] at hspec
        exact ⟨hspec.1.1.1, hspec.1.1.2, hspec.1.2, hspec.2⟩
      obtain ⟨hfmt, hy, hm99, hd99⟩ := parseIsoShape_format hp
      have hki := hmemP _ (List.get_mem (buildEvents files) i.1 i.2)
      have hkj := hmemP _ (List.get_mem (buildEvents files) j.1 j.2)
      have hbdate_ne : ((buildEvents files).get j).date ≠ "" := by
        intro h0
        rw [h0] at hp
        exact Option.noConfusion
          (show (none : Option (Nat × Nat × Nat)) = some (y, m, d) from hp)
      have hkj' : ((buildEvents files).get j).sortKey =
          ((buildEvents files).get j).date ++ "T" ++
            jsOr ((buildEvents files).get j).time "00:00" := by
        rw [hkj, jsOr, if_neg hbdate_ne]
      have hki' : ((buildEvents files).get i).sortKey =
          "9999-12-31" ++ "T" ++ jsOr ((buildEvents files).get i).time "00:00" := by
        rw [hki, hdi, jsOr_left_empty]
      have hnotrip : ¬(y = 9999 ∧ m = 12 ∧ d = 31) := by
        rintro ⟨rfl, rfl, rfl⟩
        apply hne
        apply String.ext
        rw [← hfmt]
        decide
      have hlt : lexLt ((buildEvents files).get j).sortKey.data
          ((buildEvents files).get i).sortKey.data = true := by
        rw [hki', hkj']
        simp only [String.data_append, List.append_assoc]
        rw [← hfmt]
        have hmax := lexLt_formatIso_max hy hval.2.1
          (le_trans hval.2.2.2 daysInMonth_le) hnotrip
        rw [show formatIso 9999 12 31 =
          ['9', '9', '9', '9', '-', '1', '2', '-', '3', '1'] from by decide] at hmax
        exact lexLt_append (by simp [formatIso, pad4, pad2]) hmax _ _
      by_contra hcon
      push_neg at hcon
      have hij : i ≤ j := hcon
      rcases eq_or_lt_of_le hij with he | hlt2
      · rw [← he] at hbdate_ne
        exact hbdate_ne hdi
      · have hrel := hsorted.rel_get_of_lt hlt2
        simp only [eventLe] at hrel
        rw [lexLt_le_false hlt] at hrel
        exact Bool.noConfusion hrel

/-- C2 witness: a dated event (`2024-05-02`) is placed at index 0, before
the dateless event at index 1. -/
theorem claim_C2_witness : (0 : Nat) < 1 := by
  have h := claim_C2_amended [("2024-05-02-b.txt", "Date: 2024-05-02"), ("a.txt", "Title: A")]
  exact h.2.2 ⟨1, by decide⟩ ⟨0, by decide⟩ (by decide) (by decide) (by decide)

theorem ne_of_data_get? {s1 s2 : String} (n : Nat)
    (h : s1.data[n]? ≠ s2.data[n]?) : s1 ≠ s2 :=
  fun he => h (by rw [he])

theorem interp_msg_get? (a t b : String) (n : Nat) (ha : n < a.data.length) :
    (a ++ t ++ b).data[n]? = a.data[n]? := by
  rw [String.data_append, String.data_append,
    List.getElem?_append_left (by rw [List.length_append]; omega),
    List.getElem?_append_left ha]

theorem invalidTimeMsg_ne_missing (t : String) : invalidTimeMsg t ≠ missingDateMsg := by
  apply ne_of_data_get? 0
  rw [invalidTimeMsg, interp_msg_get? _ _ _ 0 (by decide)]
  decide

theorem invalidTimeMsg_ne_invalidDate (t d : String) :
    invalidTimeMsg t ≠ invalidDateMsg d := by
  apply ne_of_data_get? 8
  rw [invalidTimeMsg, invalidDateMsg, interp_msg_get? _ _ _ 8 (by decide),
    interp_msg_get? _ _ _ 8 (by decide)]
  decide

theorem invalidLinkMsg_ne_missing (l : String) : invalidLinkMsg l ≠ missingDateMsg := by
  apply ne_of_data_get? 0
  rw [invalidLinkMsg, interp_msg_get? _ _ _ 0 (by decide)]
  decide

theorem invalidLinkMsg_ne_invalidDate (l d : String) :
    invalidLinkMsg l ≠ invalidDateMsg d := by
  apply ne_of_data_get? 8
  rw [invalidLinkMsg, invalidDateMsg, interp_msg_get? _ _ _ 8 (by decide),
    interp_msg_get? _ _ _ 8 (by decide)]
  decide

theorem dupEventMsg_ne_missing (f : String) : dupEventMsg f ≠ missingDateMsg := by
  apply ne_of_data_get? 0
  rw [dupEventMsg, interp_msg_get? _ _ _ 0 (by decide)]
  decide

theorem dupEventMsg_ne_invalidDate (f d : String) :
    dupEventMsg f ≠ invalidDateMsg d := by
  apply ne_of_data_get? 0
  rw [dupEventMsg, invalidDateMsg, interp_msg_get? _ _ _ 0 (by decide),
    interp_msg_get? _ _ _ 0 (by decide)]
  decide

theorem mem_ite_list {α : Type} {c : Prop} [Decidable c] {x : α} {l : List α}
    (h : x ∈ (if c then l else [])) : x ∈ l := by
  split at h
  · exact h
  · exact absurd h (List.not_mem_nil x)

/-- C5: for an event file whose body yields no `Date:`/`When:`/`On:` field
but whose filename begins with a valid `YYYY-MM-DD-` prefix, the validator
records neither a missing-date nor an invalid-date error (it accepts the
filename-prefix fallback), while the events builder does not apply that
fallback: the built item's date is empty and its `sortKey` begins with
`9999-12-31`. -/
theorem claim_C5 :
    ∀ (fp file content : String) (seen : List String),
      jsOr (kvGet (parseKeyValueTxt content) "date")
        (jsOr (kvGet (parseKeyValueTxt content) "when")
          (kvGet (parseKeyValueTxt content) "on")) = "" →
      filenameIsoDatePrefix file ≠ "" →
      isIsoDate (filenameIsoDatePrefix file) = true →
      (∀ e ∈ eventFileErrors fp file content seen,
        e.2 ≠ missingDateMsg ∧ ∀ d : String, e.2 ≠ invalidDateMsg d) ∧
      (buildEventItem file content).date = "" ∧
      ∃ t, (buildEventItem file content).sortKey = "9999-12-31T" ++ t := by
  intro fp file content seen hraw hpne hiso
  have hnonempty : nonEmpty (filenameIsoDatePrefix file) = true := by
    rw [nonEmpty, decide_eq_true_eq]
    intro h0
    have hfalse : isIsoDate (filenameIsoDatePrefix file) = false := by
      simp only [isIsoDate]
      rw [h0]
      rfl
    rw [hfalse] at hiso
    exact Bool.noConfusion hiso
  refine ⟨?_, ?_, ?_⟩
  · intro e he
    simp only [eventFileErrors, hraw, jsOr_left_empty, hnonempty, hiso,
      Bool.not_true, Bool.and_false, Bool.true_and, Bool.false_eq_true, if_false,
      List.nil_append, List.append_nil] at he
    rcases List.mem_append.mp he with h1 | h23
    · rcases List.mem_append.mp h1 with h1a | h1b
      · have := mem_ite_list h1a
        rw [List.mem_singleton] at this
        subst this
        exact ⟨dupEventMsg_ne_missing file, fun d => dupEventMsg_ne_invalidDate file d⟩
      · have := mem_ite_list h1b
        rw [List.mem_singleton] at this
        subst this
        exact ⟨invalidTimeMsg_ne_missing _, fun d => invalidTimeMsg_ne_invalidDate _ d⟩
    · have := mem_ite_list h23
      rw [List.mem_singleton] at this
      subst this
      exact ⟨invalidLinkMsg_ne_missing _, fun d => invalidLinkMsg_ne_invalidDate _ d⟩
  · show (buildEventItem file content).date = ""
    simp only [buildEventItem]
    exact hraw
  · refine ⟨jsOr (kvGet (parseKeyValueTxt content) "time") "00:00", ?_⟩
    show (buildEventItem file content).sortKey = _
    simp only [buildEventItem]
    rw [hraw, jsOr_left_empty]
    rw [show (("9999-12-31" : String) ++ "T") = "9999-12-31T" from rfl]

/-- C5 witness at filename `2024-05-01-foray.txt` with a body that has no
date field. -/
theorem claim_C5_witness :
    (buildEventItem "2024-05-01-foray.txt" "Title: Foray").date = "" ∧
    ("p", missingDateMsg) ∉
      eventFileErrors "p" "2024-05-01-foray.txt" "Title: Foray" [] := by
  have h := claim_C5 "p" "2024-05-01-foray.txt" "Title: Foray" []
    (by decide) (by decide) (by decide)
  exact ⟨h.2.1, fun hmem => (h.1 _ hmem).1 rfl⟩

theorem str_append_get?_left (s t : String) (n : Nat) (h : n < s.data.length) :
    (s ++ t).data[n]? = s.data[n]? := by
  rw [String.data_append, List.getElem?_append_left h]

/-- C6 counterexample: an image reference padded with whitespace is an
http(s) URL reference, yet the built item's `image` field is the trimmed
string, not the original: references other than bare `images/...` are not
emitted byte-for-byte unchanged. -/
theorem claim_C6_cex :
    (normalizeGallery [{ emptyGalleryObj with image := " http://e.com/p.jpg" }]).map
        (fun it => it.image) = ["http://e.com/p.jpg"] ∧
      (" http://e.com/p.jpg" : String) ≠ "http://e.com/p.jpg" := by
  constructor <;> decide

/-- C6 (amended): every built gallery item arises from a source item by
the image rewrite alone: the trimmed image reference is prefixed with
`gallery/` when it starts with `images/`, and is emitted as its trimmed
value otherwise; in particular `"images/pic.jpg"` is built as
`"gallery/images/pic.jpg"`. -/
theorem claim_C6_amended :
    ∀ items : List GalleryObj,
      (∀ out ∈ normalizeGallery items, ∃ s0 ∈ items,
        out = rewriteImage s0 ∧
        out.image = (if strStartsWith (jsTrimS s0.image) "images/"
          then "gallery/" ++ jsTrimS s0.image else jsTrimS s0.image)) ∧
      (normalizeGallery [{ emptyGalleryObj with image := "images/pic.jpg" }]).map
        (fun it => it.image) = ["gallery/images/pic.jpg"] := by
  intro items
  constructor
  · intro out hout
    simp only [normalizeGallery, List.mem_map, List.mem_insertionSort] at hout
    obtain ⟨s0, hs0, rfl⟩ := hout
    exact ⟨s0, hs0, rfl, rfl⟩
  · decide

/-- C6 witness: the rewrite sends `"images/pic.jpg"` to
`"gallery/images/pic.jpg"`. -/
theorem claim_C6_witness :
    (rewriteImage { emptyGalleryObj with image := "images/pic.jpg" }).image =
      "gallery/images/pic.jpg" := by
  have h := (claim_C6_amended [{ emptyGalleryObj with image := "images/pic.jpg" }]).1
    (rewriteImage { emptyGalleryObj with image := "images/pic.jpg" }) (by decide)
  obtain ⟨s0, hs0, _, himg⟩ := h
  rw [List.mem_singleton] at hs0
  subst hs0
  rw [himg]
  decide

theorem invalidImageValueMsg_ne_missingImage (i : String) :
    invalidImageValueMsg i ≠ missingImageMsg := by
  apply ne_of_data_get? 0
  rw [invalidImageValueMsg, interp_msg_get? _ _ _ 0 (by decide)]
  decide

theorem invalidImageUrlMsg_ne_missingImage (u : String) :
    invalidImageUrlMsg u ≠ missingImageMsg := by
  apply ne_of_data_get? 0
  rw [invalidImageUrlMsg, interp_msg_get? _ _ _ 0 (by decide)]
  decide

theorem imageNotExistMsg_ne_missingImage (r i : String) :
    imageNotExistMsg r i ≠ missingImageMsg := by
  apply ne_of_data_get? 0
  rw [imageNotExistMsg, str_append_get?_left _ _ 0 (by decide)]
  decide

theorem missingGalleryIdMsg_ne_missingImage :
    missingGalleryIdMsg ≠ missingImageMsg := by
  decide

theorem invalidDateMsg_ne_missingImage (d : String) :
    invalidDateMsg d ≠ missingImageMsg := by
  apply ne_of_data_get? 1
  rw [invalidDateMsg, interp_msg_get? _ _ _ 1 (by decide)]
  decide

theorem dupGalleryMsg_ne_missingImage (x : String) :
    dupGalleryMsg x ≠ missingImageMsg := by
  apply ne_of_data_get? 0
  rw [dupGalleryMsg, interp_msg_get? _ _ _ 0 (by decide)]
  decide

/-- C9: a gallery meta object whose image reference is supplied only under
the legacy keys `image_filename` or `src` passes the validator's
required-image check (the validator falls back through `image`,
`image_filename`, `src`), while the gallery builder reads only `image`, so
the built item's `image` field is the empty string. -/
theorem claim_C9 :
    ∀ (root : String) (fsE : String → Bool) (fp file : String)
      (obj : GalleryObj) (seen : List String),
      obj.image = "" →
      jsTrimS (jsOr obj.image_filename obj.src) ≠ "" →
      (∀ e ∈ galleryFileErrors root fsE fp file obj seen, e.2 ≠ missingImageMsg) ∧
      (rewriteImage obj).image = "" := by
  intro root fsE fp file obj seen himg hleg
  constructor
  · intro e he
    simp only [galleryFileErrors, galleryImageErrors, himg, jsOr_left_empty] at he
    rw [if_neg hleg] at he
    rcases List.mem_append.mp he with h12 | h4
    · rcases List.mem_append.mp h12 with h12' | h3
      · rcases List.mem_append.mp h12' with h1 | h2
        · have := mem_ite_list h1
          rw [List.mem_singleton] at this
          subst this
          exact missingGalleryIdMsg_ne_missingImage
        · rcases hres : resolveGalleryImage root (jsTrimS (jsOr obj.image_filename obj.src)) with
            _ | r
          · rw [hres] at h2
            rw [List.mem_singleton] at h2
            subst h2
            exact invalidImageValueMsg_ne_missingImage _
          · rcases r with u | v
            · rw [hres] at h2
              have := mem_ite_list h2
              rw [List.mem_singleton] at this
              subst this
              exact invalidImageUrlMsg_ne_missingImage _
            · rw [hres] at h2
              have := mem_ite_list h2
              rw [List.mem_singleton] at this
              subst this
              exact imageNotExistMsg_ne_missingImage _ _
      · have := mem_ite_list h3
        rw [List.mem_singleton] at this
        subst this
        exact invalidDateMsg_ne_missingImage _
    · have := mem_ite_list h4
      rw [List.mem_singleton] at this
      subst this
      exact dupGalleryMsg_ne_missingImage _
  · simp only [rewriteImage]
    rw [himg]
    decide

/-- C9 witness: image supplied only as `image_filename`. -/
theorem claim_C9_witness :
    (rewriteImage { emptyGalleryObj with image_filename := "pic.jpg" }).image = "" ∧
    ("fp", missingImageMsg) ∉ galleryFileErrors "" (fun _ => false) "fp" "a.json"
      { emptyGalleryObj with image_filename := "pic.jpg" } [] := by
  have h := claim_C9 "" (fun _ => false) "fp" "a.json"
    { emptyGalleryObj with image_filename := "pic.jpg" } [] (by decide) (by decide)
  exact ⟨h.2, fun hmem => h.1 _ hmem rfl⟩

theorem missingGalleryIdMsg_ne_dup (x : String) :
    missingGalleryIdMsg ≠ dupGalleryMsg x := by
  apply ne_of_data_get? 0
  rw [dupGalleryMsg, interp_msg_get? _ _ _ 0 (by decide)]
  decide

theorem missingImageMsg_ne_dup (x : String) : missingImageMsg ≠ dupGalleryMsg x := by
  apply ne_of_data_get? 0
  rw [dupGalleryMsg, interp_msg_get? _ _ _ 0 (by decide)]
  decide

theorem invalidImageValueMsg_ne_dup (i x : String) :
    invalidImageValueMsg i ≠ dupGalleryMsg x := by
  apply ne_of_data_get? 0
  rw [invalidImageValueMsg, dupGalleryMsg, interp_msg_get? _ _ _ 0 (by decide),
    interp_msg_get? _ _ _ 0 (by decide)]
  decide

theorem invalidImageUrlMsg_ne_dup (u x : String) :
    invalidImageUrlMsg u ≠ dupGalleryMsg x := by
  apply ne_of_data_get? 0
  rw [invalidImageUrlMsg, dupGalleryMsg, interp_msg_get? _ _ _ 0 (by decide),
    interp_msg_get? _ _ _ 0 (by decide)]
  decide

theorem imageNotExistMsg_ne_dup (r i x : String) :
    imageNotExistMsg r i ≠ dupGalleryMsg x := by
  apply ne_of_data_get? 0
  rw [imageNotExistMsg, dupGalleryMsg, str_append_get?_left _ _ 0 (by decide),
    interp_msg_get? _ _ _ 0 (by decide)]
  decide

theorem invalidDateMsg_ne_dup (d x : String) :
    invalidDateMsg d ≠ dupGalleryMsg x := by
  apply ne_of_data_get? 0
  rw [invalidDateMsg, dupGalleryMsg, interp_msg_get? _ _ _ 0 (by decide),
    interp_msg_get? _ _ _ 0 (by decide)]
  decide

theorem invalidJsonMsg_ne_dup (x : String) : invalidJsonMsg ≠ dupGalleryMsg x := by
  apply ne_of_data_get? 0
  rw [dupGalleryMsg, interp_msg_get? _ _ _ 0 (by decide)]
  decide

theorem dupGalleryMsg_inj {a b : String} (h : dupGalleryMsg a = dupGalleryMsg b) :
    a = b := by
  rw [dupGalleryMsg, dupGalleryMsg] at h
  have h2 := congrArg String.data h
  rw [String.data_append, String.data_append, String.data_append,
    String.data_append] at h2
  exact String.ext (List.append_cancel_left (List.append_cancel_right h2))

theorem filter_singleton_none {α : Type} (p : α → Bool) (e : α)
    (he : p e = false) : List.filter p [e] = [] := by
  simp [List.filter_cons, he]

theorem filter_ite_block {α : Type} {c : Prop} [Decidable c] (p : α → Bool)
    (l : List α) (hl : l.filter p = []) :
    ((if c then l else []).filter p) = [] := by
  split
  · exact hl
  · rfl

theorem pair_beq_false (fp m x : String) (h : m ≠ dupGalleryMsg x) :
    ((fun e => e.2 == dupGalleryMsg x) ((fp, m) : String × String)) = false := by
  show (m == dupGalleryMsg x) = false
  rw [beq_eq_false_iff_ne]
  exact h

theorem galleryImageErrors_filter (root : String) (fsE : String → Bool)
    (fp img x : String) :
    (galleryImageErrors root fsE fp img).filter
      (fun e => e.2 == dupGalleryMsg x) = [] := by
  simp only [galleryImageErrors]
  split
  · exact filter_singleton_none _ _ (pair_beq_false _ _ _ (missingImageMsg_ne_dup x))
  · split
    · exact filter_singleton_none _ _
        (pair_beq_false _ _ _ (invalidImageValueMsg_ne_dup _ x))
    · exact filter_ite_block _ _ (filter_singleton_none _ _
        (pair_beq_false _ _ _ (invalidImageUrlMsg_ne_dup _ x)))
    · exact filter_ite_block _ _ (filter_singleton_none _ _
        (pair_beq_false _ _ _ (imageNotExistMsg_ne_dup _ _ x)))

theorem filter_dup_single (fp m x : String) (h : m ≠ dupGalleryMsg x) :
    (([((fp, m) : String × String)]).filter (fun e => e.2 == dupGalleryMsg x)) = [] :=
  filter_singleton_none _ _ (pair_beq_false fp m x h)

theorem filter_dup_ite_single {c : Prop} [Decidable c] (fp m x : String)
    (h : m ≠ dupGalleryMsg x) :
    ((if c then [((fp, m) : String × String)] else []).filter
      (fun e => e.2 == dupGalleryMsg x)) = [] := by
  split
  · exact filter_singleton_none _ _ (pair_beq_false fp m x h)
  · rfl

theorem galleryFileErrors_filter (root : String) (fsE : String → Bool)
    (fp file : String) (obj : GalleryObj) (seen : List String) (x : String)
    (hx : x ≠ "") :
    (galleryFileErrors root fsE fp file obj seen).filter
        (fun e => e.2 == dupGalleryMsg x) =
      if galleryEntryId file obj = x ∧ seen.contains x = true
      then [(fp, dupGalleryMsg x)] else [] := by
  simp only [galleryFileErrors]
  rw [List.filter_append, List.filter_append, List.filter_append]
  rw [filter_dup_ite_single fp missingGalleryIdMsg x (missingGalleryIdMsg_ne_dup x)]
  rw [galleryImageErrors_filter]
  rw [filter_dup_ite_single fp (invalidDateMsg (jsTrimS obj.date)) x
    (invalidDateMsg_ne_dup _ x)]
  simp only [List.nil_append]
  by_cases hid : galleryEntryId file obj = x
  · rw [hid]
    have hxb : (x == "") = false := by rw [beq_eq_false_iff_ne]; exact hx
    by_cases hseen : seen.contains x = true
    · rw [if_pos (show ((!(x == "")) && seen.contains x) = true by
        rw [hxb, hseen]; rfl)]
      rw [if_pos ⟨rfl, hseen⟩]
      simp [List.filter_cons]
    · rw [if_neg (show ¬(((!(x == "")) && seen.contains x) = true) by
        rw [hxb]
        simp only [Bool.not_false, Bool.true_and]
        exact hseen)]
      rw [if_neg (fun hc => hseen hc.2)]
      rfl
  · split
    · rw [filter_dup_single fp (dupGalleryMsg (galleryEntryId file obj)) x
        (fun h => hid (dupGalleryMsg_inj h))]
      exact (if_neg (fun hc => hid hc.1)).symm
    · exact (if_neg (fun hc => hid hc.1)).symm

theorem validateGalleryGo_filter (root : String) (fsE : String → Bool) (x : String)
    (hx : x ≠ "") :
    ∀ (L : List (String × Option GalleryObj)) (seen : List String),
      (validateGalleryGo root fsE L seen).filter (fun e => e.2 == dupGalleryMsg x) =
        (if seen.contains x = true
         then L.filter (fun e => galleryEntryIdOf e == some x)
         else (L.filter (fun e => galleryEntryIdOf e == some x)).drop 1).map
          (fun e => (pathJoin (galleryMetaDirPath root) e.1, dupGalleryMsg x)) := by
  intro L
  induction L with
  | nil =>
    intro seen
    simp only [validateGalleryGo, List.filter_nil, List.drop_nil, List.map_nil]
    split <;> rfl
  | cons e rest ih =>
    intro seen
    obtain ⟨file, obj?⟩ := e
    cases obj? with
    | none =>
      simp only [validateGalleryGo]
      have hpj : ¬ ((fun (e : String × String) => e.2 == dupGalleryMsg x)
          ((pathJoin (galleryMetaDirPath root) file, invalidJsonMsg))) := by
        simp only [pair_beq_false (pathJoin (galleryMetaDirPath root) file)
          invalidJsonMsg x (invalidJsonMsg_ne_dup x)]
        simp
      have hq : ¬ ((fun (e : String × Option GalleryObj) => galleryEntryIdOf e == some x)
          ((file, none))) := by
        simp [galleryEntryIdOf]
      rw [@List.filter_cons_of_neg _ (fun (e : String × String) => e.2 == dupGalleryMsg x)
        ((pathJoin (galleryMetaDirPath root) file, invalidJsonMsg))
        (validateGalleryGo root fsE rest seen) hpj]
      rw [@List.filter_cons_of_neg _
        (fun (e : String × Option GalleryObj) => galleryEntryIdOf e == some x)
        ((file, none)) rest hq]
      rw [ih seen]
    | some obj =>
      simp only [validateGalleryGo]
      rw [List.filter_append]
      rw [galleryFileErrors_filter root fsE _ file obj seen x hx]
      by_cases hid : galleryEntryId file obj = x
      · have hq : ((fun (e : String × Option GalleryObj) => galleryEntryIdOf e == some x)
            ((file, some obj))) := by
          simp [galleryEntryIdOf, hid]
        rw [@List.filter_cons_of_pos _
          (fun (e : String × Option GalleryObj) => galleryEntryIdOf e == some x)
          ((file, some obj)) rest hq]
        have hidne : galleryEntryId file obj ≠ "" := by rw [hid]; exact hx
        rw [if_neg hidne]
        rw [ih (galleryEntryId file obj :: seen)]
        have hcontains : ((galleryEntryId file obj :: seen).contains x) = true := by
          rw [List.contains_cons, hid]
          simp
        rw [if_pos hcontains]
        by_cases hseen : seen.contains x = true
        · have hcond : galleryEntryId file obj = x ∧ seen.contains x = true :=
            ⟨hid, hseen⟩
          rw [if_pos hcond, if_pos hseen]
          simp
        · have hcond : ¬(galleryEntryId file obj = x ∧ seen.contains x = true) :=
            fun hc => hseen hc.2
          rw [if_neg hcond, if_neg hseen]
          simp [List.drop_succ_cons]
      · have hq : ¬ ((fun (e : String × Option GalleryObj) => galleryEntryIdOf e == some x)
            ((file, some obj))) := by
          simp only [galleryEntryIdOf, beq_iff_eq, Option.some.injEq]
          exact hid
        rw [@List.filter_cons_of_neg _
          (fun (e : String × Option GalleryObj) => galleryEntryIdOf e == some x)
          ((file, some obj)) rest hq]
        have hcond : ¬(galleryEntryId file obj = x ∧ seen.contains x = true) :=
          fun hc => hid hc.1
        rw [if_neg hcond]
        rw [ih (if galleryEntryId file obj = "" then seen
          else galleryEntryId file obj :: seen)]
        have hsc : (if galleryEntryId file obj = "" then seen
            else galleryEntryId file obj :: seen).contains x = seen.contains x := by
          split
          · rfl
          · rw [List.contains_cons]
            have hxb : (x == galleryEntryId file obj) = false := by
              rw [beq_eq_false_iff_ne]
              exact fun h => hid h.symm
            rw [hxb, Bool.false_or]
        rw [hsc]
        simp

/-- C7: the duplicate-gallery-id errors citing a given id `x`, in the
errors produced by `validateGallery`, are exactly one error per occurrence
of `x` *after the first* in the sorted file listing, each attributed to the
file of that later occurrence; in particular when exactly two files declare
or derive id `x`, exactly one such error is produced, attributed to the
second of the two files in sorted filename order, and the first occurrence
never receives one. -/
theorem claim_C7 :
    ∀ (root : String) (fsE : String → Bool)
      (files : List (String × Option GalleryObj)) (x : String), x ≠ "" →
      (validateGallery root fsE files).filter (fun e => e.2 == dupGalleryMsg x) =
        ((galleryOccurrences files x).drop 1).map
          (fun f => (pathJoin (galleryMetaDirPath root) f, dupGalleryMsg x)) := by
  intro root fsE files x hx
  rw [validateGallery, validateGalleryGo_filter root fsE x hx (galleryListing files) []]
  rw [if_neg (by simp)]
  rw [galleryOccurrences, ← List.map_drop, List.map_map]
  rfl

/-- C7 witness: of two files declaring id `"x"` (listed in sorted order
`a.json`, `b.json`), exactly the second, `b.json`, receives the one
duplicate-id error. -/
theorem claim_C7_witness :
    (validateGallery "" (fun _ => false)
        [("b.json", some { emptyGalleryObj with id := "x", image := "http://e.com/i.jpg" }),
         ("a.json", some { emptyGalleryObj with id := "x", image := "http://e.com/i.jpg" }),
         ("c.json", some { emptyGalleryObj with id := "y", image := "http://e.com/i.jpg" })]).filter
      (fun e => e.2 == dupGalleryMsg "x") =
      [(pathJoin (galleryMetaDirPath "") "b.json", dupGalleryMsg "x")] := by
  rw [claim_C7 "" (fun _ => false) _ "x" (by decide)]
  decide

/-- C4 counterexample: two news files sharing the date `2024-01-01` (with
distinct ids and otherwise valid fields) produce *no* errors at all — in
particular no duplicate-date error against the later occurrence: the
validator does not enforce date uniqueness. -/
theorem claim_C4_cex :
    validateNews ""
      [("2024-01-01-a.json", some ⟨"a1", "T1", "2024-01-01", "qa", "s", "b", ""⟩),
       ("2024-01-01-b.json", some ⟨"b1", "T2", "2024-01-01", "qa", "s", "b", ""⟩)] = [] := by
  decide

theorem get_mem_take {α : Type} (L : List α) (i j : Nat) (hi : i < L.length)
    (hij : i < j) : L.get ⟨i, hi⟩ ∈ L.take j := by
  have h1 : (L.take j)[i]? = some (L.get ⟨i, hi⟩) := by
    rw [List.getElem?_take_of_lt hij, List.getElem?_eq_getElem hi]
    rfl
  exact List.getElem?_mem h1

theorem mem_newsSeenUpdate {x : String} {seen : List String}
    (e : String × Option NewsObj) (h : x ∈ seen) : x ∈ newsSeenUpdate seen e := by
  obtain ⟨f, o⟩ := e
  cases o with
  | none => exact h
  | some obj =>
    simp only [newsSeenUpdate]
    split
    · exact h
    · exact List.mem_cons_of_mem _ h

theorem mem_newsSeenAfter (x : String) (hx : x ≠ "") :
    ∀ (L : List (String × Option NewsObj)) (seen : List String),
      ((∃ e ∈ L, newsIdOf e = some x) ∨ x ∈ seen) → x ∈ newsSeenAfter seen L := by
  intro L
  induction L with
  | nil =>
    intro seen h
    rcases h with ⟨e, he, _⟩ | h
    · exact absurd he (List.not_mem_nil e)
    · exact h
  | cons e rest ih =>
    intro seen h
    simp only [newsSeenAfter]
    rcases h with ⟨e2, he2, hid⟩ | h
    · rcases List.mem_cons.mp he2 with he | hmem
      · subst he
        apply ih
        right
        obtain ⟨f, o⟩ := e2
        cases o with
        | none => exact absurd hid (by simp [newsIdOf])
        | some obj =>
          simp only [newsIdOf, Option.some.injEq] at hid
          simp only [newsSeenUpdate]
          rw [hid, if_neg hx]
          exact List.mem_cons_self x seen
      · exact ih _ (Or.inl ⟨e2, hmem, hid⟩)
    · exact ih _ (Or.inr (mem_newsSeenUpdate e h))

theorem mem_validateNewsGo (root : String) :
    ∀ (L : List (String × Option NewsObj)) (seen : List String) (k : Nat)
      (hk : k < L.length) (y : String × String),
      y ∈ newsEntryErrors root (L.get ⟨k, hk⟩) (newsSeenAfter seen (L.take k)) →
      y ∈ validateNewsGo root L seen := by
  intro L
  induction L with
  | nil =>
    intro seen k hk y _
    exact absurd hk (Nat.not_lt_zero k)
  | cons e rest ih =>
    intro seen k hk y hy
    cases k with
    | zero =>
      simp only [List.take_zero, newsSeenAfter, List.get] at hy
      simp only [validateNewsGo]
      exact List.mem_append.mpr (Or.inl hy)
    | succ k2 =>
      have hk2 : k2 < rest.length := by
        simp only [List.length_cons] at hk
        omega
      simp only [List.take_succ_cons, newsSeenAfter, List.get] at hy
      simp only [validateNewsGo]
      exact List.mem_append.mpr (Or.inr (ih (newsSeenUpdate seen e) k2 hk2 y hy))

/-- C4 (amended): the news validator records an error for each news file
missing its `id` or its `date`, and enforces uniqueness of `id`: any two
news files sharing the same non-empty id cause a duplicate-id error
recorded against the later occurrence.  (Date uniqueness is not checked —
see the counterexample.) -/
theorem claim_C4_amended :
    ∀ (root : String) (files : List (String × Option NewsObj)),
      (∀ (k : Nat) (hk : k < (newsListing files).length) (obj : NewsObj),
        ((newsListing files).get ⟨k, hk⟩).2 = some obj →
        (jsTrimS obj.id = "" →
          (pathJoin (newsDirPath root) ((newsListing files).get ⟨k, hk⟩).1,
            missingFieldMsg "id") ∈ validateNews root files) ∧
        (jsTrimS obj.date = "" →
          (pathJoin (newsDirPath root) ((newsListing files).get ⟨k, hk⟩).1,
            missingFieldMsg "date") ∈ validateNews root files)) ∧
      (∀ (i j : Nat) (hi : i < (newsListing files).length)
        (hj : j < (newsListing files).length), i < j →
        ∀ oi oj, ((newsListing files).get ⟨i, hi⟩).2 = some oi →
        ((newsListing files).get ⟨j, hj⟩).2 = some oj →
        jsTrimS oi.id = jsTrimS oj.id → jsTrimS oj.id ≠ "" →
        (pathJoin (newsDirPath root) ((newsListing files).get ⟨j, hj⟩).1,
          dupNewsMsg (jsTrimS oj.id)) ∈ validateNews root files) := by
  intro root files
  constructor
  · intro k hk obj hobj
    constructor
    · intro hid
      apply mem_validateNewsGo root (newsListing files) [] k hk
      simp only [newsEntryErrors, hobj]
      simp only [newsFileErrors, List.mem_append, hid]
      simp
    · intro hdate
      apply mem_validateNewsGo root (newsListing files) [] k hk
      simp only [newsEntryErrors, hobj]
      simp only [newsFileErrors, List.mem_append, hdate]
      simp
  · intro i j hi hj hij oi oj hoi hoj heq hne
    apply mem_validateNewsGo root (newsListing files) [] j hj
    have hxseen : jsTrimS oj.id ∈ newsSeenAfter [] ((newsListing files).take j) := by
      apply mem_newsSeenAfter _ hne
      left
      refine ⟨(newsListing files).get ⟨i, hi⟩, get_mem_take _ i j hi hij, ?_⟩
      simp only [newsIdOf, hoi]
      rw [heq]
    simp only [newsEntryErrors, hoj]
    have hcb : ((!(jsTrimS oj.id == "")) &&
        (newsSeenAfter [] ((newsListing files).take j)).contains (jsTrimS oj.id)) = true := by
      have h1 : (jsTrimS oj.id == "") = false := by
        rw [beq_eq_false_iff_ne]
        exact hne
      have h2 : (newsSeenAfter [] ((newsListing files).take j)).contains
          (jsTrimS oj.id) = true := by
        rw [show (newsSeenAfter [] ((newsListing files).take j)).contains
          (jsTrimS oj.id) = List.elem (jsTrimS oj.id)
            (newsSeenAfter [] ((newsListing files).take j)) from rfl]
        exact List.elem_iff.mpr hxseen
      rw [h1, h2]
      rfl
    simp only [newsFileErrors, List.mem_append, hcb]
    simp

/-- C4 witness: two files with the same id `"z"`; the duplicate-id error is
recorded against the later file `2024-01-02-b.json`. -/
theorem claim_C4_witness :
    (pathJoin (newsDirPath "") "2024-01-02-b.json", dupNewsMsg "z") ∈
      validateNews ""
        [("2024-01-01-a.json", some ⟨"z", "T1", "2024-01-01", "qa", "s", "b", ""⟩),
         ("2024-01-02-b.json", some ⟨"z", "T2", "2024-01-02", "qa", "s", "b", ""⟩)] := by
  have h := (claim_C4_amended ""
    [("2024-01-01-a.json", some ⟨"z", "T1", "2024-01-01", "qa", "s", "b", ""⟩),
     ("2024-01-02-b.json", some ⟨"z", "T2", "2024-01-02", "qa", "s", "b", ""⟩)]).2
    0 1 (by decide) (by decide) (by decide)
    ⟨"z", "T1", "2024-01-01", "qa", "s", "b", ""⟩
    ⟨"z", "T2", "2024-01-02", "qa", "s", "b", ""⟩
    (by decide) (by decide) (by decide) (by decide)
  exact h

/-- C8: running the builders twice over an unchanged set of source files
produces byte-identical output JSON documents both times; in particular the
maps placeholder written by the first run (only when the output file was
absent) is left unchanged by the second. -/
theorem claim_C8 :
    ∀ (src : BuildSources) (maps0 : Option String),
      runBuilders src (some ((runBuilders src maps0).mapsOut)) =
        runBuilders src maps0 := by
  intro src maps0
  cases maps0 <;> rfl

/-- C10 witness at `"HTTPS://example.com/x"`. -/
theorem claim_C10_witness :
    isHttpUrlRequired "HTTPS://example.com/x" = true ∧
    isHttpUrlOptional "HTTPS://example.com/x" = true ∧
    resolveGalleryImage "/repo" "HTTPS://example.com/x" =
      some (Resolved.url "HTTPS://example.com/x") := by
  have h := claim_C10 "HTTPS://example.com/x" ("HTTPS://".data)
    ("example.com/x".data) (by decide) (Or.inr (by decide)) (by decide) (by decide)
  exact ⟨h.1, h.2.1, h.2.2 "/repo"⟩

end Champ
